import Mathlib

set_option maxRecDepth 8000

namespace Ttymon

/-- True when the byte is a UTF-8 continuation byte (10xxxxxx). -/
def isCont (b : Nat) : Bool := 0x80 ≤ b && b ≤ 0xbf

/-- UTF-8 encoding of a Unicode scalar value, as produced by char.encode_utf8
in the print callback of the filter (src/filter.rs, print). -/
def utf8Encode (c : Nat) : List Nat :=
  if c < 0x80 then [c]
  else if c < 0x800 then [0xc0 + c / 64, 0x80 + c % 64]
  else if c < 0x10000 then [0xe0 + c / 4096, 0x80 + c / 64 % 64, 0x80 + c % 64]
  else [0xf0 + c / 262144, 0x80 + c / 4096 % 64, 0x80 + c / 64 % 64, 0x80 + c % 64]

/-- UTF-8 validity of a byte sequence, as checked by std.str.from_utf8 in Rust:
RFC 3629 table, rejecting overlong forms, surrogates and values above 0x10FFFF. -/
def utf8Valid : List Nat → Bool
  | [] => true
  | b :: rest =>
    if b ≤ 0x7f then utf8Valid rest
    else if 0xc2 ≤ b && b ≤ 0xdf then
      match rest with
      | c1 :: rest1 => isCont c1 && utf8Valid rest1
      | [] => false
    else if b = 0xe0 then
      match rest with
      | c1 :: c2 :: rest2 => (0xa0 ≤ c1 && c1 ≤ 0xbf) && isCont c2 && utf8Valid rest2
      | _ => false
    else if 0xe1 ≤ b && b ≤ 0xec then
      match rest with
      | c1 :: c2 :: rest2 => isCont c1 && isCont c2 && utf8Valid rest2
      | _ => false
    else if b = 0xed then
      match rest with
      | c1 :: c2 :: rest2 => (0x80 ≤ c1 && c1 ≤ 0x9f) && isCont c2 && utf8Valid rest2
      | _ => false
    else if 0xee ≤ b && b ≤ 0xef then
      match rest with
      | c1 :: c2 :: rest2 => isCont c1 && isCont c2 && utf8Valid rest2
      | _ => false
    else if b = 0xf0 then
      match rest with
      | c1 :: c2 :: c3 :: rest3 =>
        (0x90 ≤ c1 && c1 ≤ 0xbf) && isCont c2 && isCont c3 && utf8Valid rest3
      | _ => false
    else if 0xf1 ≤ b && b ≤ 0xf3 then
      match rest with
      | c1 :: c2 :: c3 :: rest3 => isCont c1 && isCont c2 && isCont c3 && utf8Valid rest3
      | _ => false
    else if b = 0xf4 then
      match rest with
      | c1 :: c2 :: c3 :: rest3 =>
        (0x80 ≤ c1 && c1 ≤ 0x8f) && isCont c2 && isCont c3 && utf8Valid rest3
      | _ => false
    else false

namespace Filter

/-- BEL byte (src/filter.rs line 8). -/
def BEL : Nat := 0x07
/-- ESC byte (src/filter.rs line 9). -/
def ESC : Nat := 0x1b
/-- DCS introducer ESC P (src/filter.rs line 10). -/
def DCS : List Nat := [ESC, 0x50]
/-- CSI introducer ESC left-bracket (src/filter.rs line 11). -/
def CSI : List Nat := [ESC, 0x5b]
/-- OSC introducer ESC right-bracket (src/filter.rs line 12). -/
def OSC : List Nat := [ESC, 0x5d]
/-- String terminator ESC backslash (src/filter.rs line 13). -/
def ST : List Nat := [ESC, 0x5c]

/-- The UTF-8 bytes of the string ttymon, the default inbound title. -/
def ttymonNats : List Nat := [0x74, 0x74, 0x79, 0x6d, 0x6f, 0x6e]

/-- State of the control-sequence filter: the struct FilterState of
src/filter.rs lines 51 to 58.  Strings are kept as their UTF-8 byte lists. -/
structure FilterState where
  buffer : List Nat
  current_directory : List Nat
  in_window_title : List Nat
  out_window_title : List Nat
  out_window_title_pending : Bool
  in_dcs : Bool
deriving Repr, DecidableEq

/-- FilterState.new (src/filter.rs lines 61 to 70). -/
def FilterState.new : FilterState :=
  { buffer := []
    current_directory := []
    in_window_title := ttymonNats
    out_window_title := []
    out_window_title_pending := false
    in_dcs := false }

/-- FilterState.append (src/filter.rs lines 83 to 86): push one byte. -/
def FilterState.append (s : FilterState) (b : Nat) : FilterState :=
  { s with buffer := s.buffer ++ [b] }

/-- FilterState.append_many (src/filter.rs lines 88 to 93). -/
def FilterState.append_many (s : FilterState) (bs : List Nat) : FilterState :=
  { s with buffer := s.buffer ++ bs }

/-- The divisor-search loop of FilterState.append_u16 (src/filter.rs lines
96 to 100): starting from 1, multiply by 10 while the divisor is at most
val divided by 10.  The extra positivity test only guards the (unreachable in
the source, which always starts from 1) zero divisor. -/
def findDivisor (valOver10 : Nat) (divisor : Nat) : Nat :=
  if 0 < divisor ∧ divisor ≤ valOver10 then findDivisor valOver10 (divisor * 10)
  else divisor
termination_by valOver10 + 1 - divisor
decreasing_by omega

/-- The digit-emission loop of FilterState.append_u16 (src/filter.rs lines
102 to 108): emit v / divisor as an ASCII digit, keep the remainder, divide
the divisor by 10 until it reaches zero. -/
def digitsLoop (v : Nat) (divisor : Nat) : List Nat :=
  if divisor = 0 then []
  else (0x30 + v / divisor) :: digitsLoop (v % divisor) (divisor / 10)
termination_by divisor
decreasing_by omega

/-- Nats appended by FilterState.append_u16 (src/filter.rs lines 95 to 109):
the decimal digits of v with no padding. -/
def append_u16 (v : Nat) : List Nat := digitsLoop v (findDivisor (v / 10) 1)

/-- Join byte chunks with semicolon separators, the shape of both parameter
emission loops in src/filter.rs. -/
def joinSemi : List (List Nat) → List Nat
  | [] => []
  | [b] => b
  | b :: bs => b ++ [0x3b] ++ joinSemi bs

/-- Nats appended by FilterState.append_params (src/filter.rs lines 111 to
125): parameters separated by semicolons, subparameters also separated by
semicolons, each value in minimal decimal digits. -/
def append_params (params : List (List Nat)) : List Nat :=
  joinSemi (params.map (fun p => joinSemi (p.map append_u16)))

/-- FilterState.append_window_title (src/filter.rs lines 127 to 132):
ESC ] 0 ; title ESC backslash. -/
def FilterState.append_window_title (s : FilterState) (title : List Nat) : FilterState :=
  s.append_many (OSC ++ [0x30, 0x3b] ++ title ++ ST)

/-- FilterState.set_out_window_title (src/filter.rs lines 72 to 81). -/
def FilterState.set_out_window_title (s : FilterState) (title : List Nat) : FilterState :=
  if s.out_window_title ≠ title then
    let s1 := { s with out_window_title := title }
    if s1.in_dcs then { s1 with out_window_title_pending := true }
    else s1.append_window_title title
  else s

/-- Perform.print (src/filter.rs lines 136 to 140): re-encode the character
as UTF-8 into the buffer. -/
def FilterState.print (s : FilterState) (c : Nat) : FilterState :=
  s.append_many (utf8Encode c)

/-- Perform.execute (src/filter.rs lines 142 to 144): C0 bytes verbatim. -/
def FilterState.execute (s : FilterState) (b : Nat) : FilterState :=
  s.append b

/-- Perform.hook (src/filter.rs lines 146 to 152): set in_dcs, emit the DCS
prefix, parameters, intermediates and the action byte. -/
def FilterState.hook (s : FilterState) (params : List (List Nat))
    (intermediates : List Nat) (action : Nat) : FilterState :=
  ({ s with in_dcs := true }).append_many (DCS ++ append_params params ++ intermediates ++ [action])

/-- Perform.put (src/filter.rs lines 154 to 156): DCS payload verbatim. -/
def FilterState.putNat (s : FilterState) (b : Nat) : FilterState :=
  s.append b

/-- Perform.unhook (src/filter.rs lines 158 to 167): clear in_dcs, emit ST,
then emit the stored outbound title whenever the pending flag is set.  Note
that the source never resets out_window_title_pending here. -/
def FilterState.unhook (s : FilterState) : FilterState :=
  let s1 := ({ s with in_dcs := false }).append_many ST
  if s1.out_window_title_pending then s1.append_window_title s1.out_window_title
  else s1

/-- Perform.osc_dispatch (src/filter.rs lines 169 to 189): an OSC with
exactly two parameters whose first is the ASCII string 0 is captured into
in_window_title (when its second parameter is valid UTF-8) and nothing is
emitted; every other OSC is re-emitted with semicolons between parameters,
terminated by BEL when the input was BEL-terminated and by ST otherwise. -/
def FilterState.osc_dispatch (s : FilterState) (params : List (List Nat))
    (bell_terminated : Bool) : FilterState :=
  match params with
  | [p0, p1] =>
    if p0 = [0x30] then
      { s with in_window_title := if utf8Valid p1 then p1 else s.in_window_title }
    else
      s.append_many (OSC ++ joinSemi [p0, p1] ++ (if bell_terminated then [BEL] else ST))
  | _ =>
    s.append_many (OSC ++ joinSemi params ++ (if bell_terminated then [BEL] else ST))

/-- Perform.csi_dispatch (src/filter.rs lines 191 to 196). -/
def FilterState.csi_dispatch (s : FilterState) (params : List (List Nat))
    (intermediates : List Nat) (action : Nat) : FilterState :=
  s.append_many (CSI ++ append_params params ++ intermediates ++ [action])

/-- Perform.esc_dispatch (src/filter.rs lines 198 to 202). -/
def FilterState.esc_dispatch (s : FilterState) (intermediates : List Nat)
    (b : Nat) : FilterState :=
  s.append_many ([ESC] ++ intermediates ++ [b])

/-- Saturating accumulation of one decimal digit into a parameter value,
capped at 65535 as in the external parser's u16 saturating arithmetic. -/
def digitAccum (cur d : Nat) : Nat :=
  if cur * 10 + d ≤ 65535 then cur * 10 + d else 65535

/-- Modelled from the spec: the vte escape parser driving the Perform
callbacks is an external collaborator whose source is not part of this
repository; this is its state machine per section 4.1 of the specification
(Ground, Escape, CSI collection, OSC collection, DCS with in_dcs, plus
UTF-8 decoding of printable characters).  Parameter collection keeps the
semicolon-separated parameters, each a colon-separated list of subparameter
values saturating at 65535, as in the Params type consumed by
append_params. -/
inductive PMode where
  | ground
  | escape
  | escapeInter (inter : List Nat)
  | seqParam (isDcs : Bool) (params : List (List Nat)) (sub : List Nat)
      (cur : Nat) (seen : Bool) (inter : List Nat)
  | seqIgnore (isDcs : Bool)
  | oscString (params : List (List Nat)) (cur : List Nat)
  | oscEsc (params : List (List Nat)) (cur : List Nat)
  | dcsPass
  | dcsEsc
  | utf8Acc (acc : Nat) (need : Nat)
deriving Repr, DecidableEq

/-- The filter: the spec-modelled parser mode paired with the FilterState
from the source (struct Filter, src/filter.rs lines 3 to 6). -/
structure Filter where
  mode : PMode
  state : FilterState
deriving Repr, DecidableEq

/-- Finalized parameter list of a CSI or DCS collection: empty when no
parameter byte was seen, otherwise the collected parameters with the
current one closed. -/
def finishParams (params : List (List Nat)) (sub : List Nat) (cur : Nat)
    (seen : Bool) : List (List Nat) :=
  if seen then params ++ [sub ++ [cur]] else []

/-- Modelled from the spec: one byte of the external vte parser, driving the
Perform callbacks of FilterState (section 4.1 state machine).  Ground prints
printables and executes C0 bytes; ESC enters Escape; bracket, right-bracket
and P select CSI, OSC and DCS collection; CSI and DCS finals dispatch with
the collected parameters and intermediates; OSC ends on BEL or ST; DCS ends
on ST through unhook. -/
def advance (f : Filter) (b : Nat) : Filter :=
  match f.mode with
  | .ground =>
    if b = 0x1b then { f with mode := .escape }
    else if b < 0x20 then { f with state := f.state.execute b }
    else if b ≤ 0x7e then { f with state := f.state.print b }
    else if 0xc0 ≤ b ∧ b ≤ 0xdf then { f with mode := .utf8Acc (b - 0xc0) 1 }
    else if 0xe0 ≤ b ∧ b ≤ 0xef then { f with mode := .utf8Acc (b - 0xe0) 2 }
    else if 0xf0 ≤ b ∧ b ≤ 0xf7 then { f with mode := .utf8Acc (b - 0xf0) 3 }
    else f
  | .escape =>
    if b = 0x5b then { f with mode := .seqParam false [] [] 0 false [] }
    else if b = 0x5d then { f with mode := .oscString [] [] }
    else if b = 0x50 then { f with mode := .seqParam true [] [] 0 false [] }
    else if b = 0x1b then f
    else if b < 0x20 then { f with state := f.state.execute b }
    else if 0x20 ≤ b ∧ b ≤ 0x2f then { f with mode := .escapeInter [b] }
    else if b ≤ 0x7e then { mode := .ground, state := f.state.esc_dispatch [] b }
    else { f with mode := .ground }
  | .escapeInter inter =>
    if b = 0x1b then { f with mode := .escape }
    else if b < 0x20 then { f with state := f.state.execute b }
    else if 0x20 ≤ b ∧ b ≤ 0x2f then { f with mode := .escapeInter (inter ++ [b]) }
    else if b ≤ 0x7e then { mode := .ground, state := f.state.esc_dispatch inter b }
    else { f with mode := .ground }
  | .seqParam isDcs params sub cur seen inter =>
    if b = 0x1b then { f with mode := .escape }
    else if b < 0x20 then { f with state := f.state.execute b }
    else if 0x20 ≤ b ∧ b ≤ 0x2f then
      { f with mode := .seqParam isDcs params sub cur seen (inter ++ [b]) }
    else if 0x30 ≤ b ∧ b ≤ 0x39 then
      if inter = [] then
        { f with mode := .seqParam isDcs params sub (digitAccum cur (b - 0x30)) true inter }
      else { f with mode := .seqIgnore isDcs }
    else if b = 0x3a then
      if inter = [] then
        { f with mode := .seqParam isDcs params (sub ++ [cur]) 0 true inter }
      else { f with mode := .seqIgnore isDcs }
    else if b = 0x3b then
      if inter = [] then
        { f with mode := .seqParam isDcs (params ++ [sub ++ [cur]]) [] 0 true inter }
      else { f with mode := .seqIgnore isDcs }
    else if 0x40 ≤ b ∧ b ≤ 0x7e then
      if isDcs then
        { mode := .dcsPass, state := f.state.hook (finishParams params sub cur seen) inter b }
      else
        { mode := .ground, state := f.state.csi_dispatch (finishParams params sub cur seen) inter b }
    else { f with mode := .seqIgnore isDcs }
  | .seqIgnore isDcs =>
    if b = 0x1b then { f with mode := .escape }
    else if 0x40 ≤ b ∧ b ≤ 0x7e then
      { f with mode := if isDcs then .dcsPass else .ground }
    else f
  | .oscString params cur =>
    if b = 0x07 then { mode := .ground, state := f.state.osc_dispatch (params ++ [cur]) true }
    else if b = 0x1b then { f with mode := .oscEsc params cur }
    else if b = 0x3b then { f with mode := .oscString (params ++ [cur]) [] }
    else if 0x20 ≤ b then { f with mode := .oscString params (cur ++ [b]) }
    else f
  | .oscEsc params cur =>
    if b = 0x5c then { mode := .ground, state := f.state.osc_dispatch (params ++ [cur]) false }
    else { f with mode := .ground }
  | .dcsPass =>
    if b = 0x1b then { f with mode := .dcsEsc }
    else { f with state := f.state.putNat b }
  | .dcsEsc =>
    if b = 0x5c then { mode := .ground, state := f.state.unhook }
    else { f with mode := .dcsPass }
  | .utf8Acc acc need =>
    if isCont b then
      if need = 1 then { mode := .ground, state := f.state.print (acc * 64 + (b - 0x80)) }
      else { f with mode := .utf8Acc (acc * 64 + (b - 0x80)) (need - 1) }
    else { f with mode := .ground }

/-- Filter.new (src/filter.rs lines 16 to 21). -/
def Filter.new : Filter := { mode := .ground, state := FilterState.new }

/-- Filter.fill (src/filter.rs lines 23 to 27): advance the parser over
every byte of the input. -/
def Filter.fill (f : Filter) (bytes : List Nat) : Filter :=
  bytes.foldl advance f

/-- Filter.in_window_title (src/filter.rs lines 34 to 36). -/
def Filter.in_window_title (f : Filter) : List Nat := f.state.in_window_title

/-- Filter.set_out_window_title (src/filter.rs lines 38 to 40). -/
def Filter.set_out_window_title (f : Filter) (title : List Nat) : Filter :=
  { f with state := f.state.set_out_window_title title }

/-- Filter.buffer (src/filter.rs lines 42 to 44). -/
def Filter.buffer (f : Filter) : List Nat := f.state.buffer

/-- Filter.clear_buffer (src/filter.rs lines 46 to 48). -/
def Filter.clear_buffer (f : Filter) : Filter :=
  { f with state := { f.state with buffer := [] } }

/-- The bytes of a synthesized title sequence ESC ] 0 ; title ESC backslash. -/
def titleSeq (title : List Nat) : List Nat := OSC ++ [0x30, 0x3b] ++ title ++ ST

/-- The input bytes ESC P q, a minimal DCS hook. -/
def dcsOpen : List Nat := [0x1b, 0x50, 0x71]

/-- The input bytes ESC backslash, the string terminator. -/
def dcsClose : List Nat := [0x1b, 0x5c]

/-- One input unit in canonical emitted form: printable text, a C0 control,
or a complete escape sequence whose parameters are already written as
minimal semicolon-separated decimals, exactly the form the filter itself
emits. -/
inductive Token where
  | text (c : Nat)
  | ctl (b : Nat)
  | escd (inter : List Nat) (final : Nat)
  | csi (ps : List Nat) (inter : List Nat) (final : Nat)
  | osc (params : List (List Nat)) (bell : Bool)
  | dcs (ps : List Nat) (inter : List Nat) (final : Nat) (payload : List Nat)
deriving Repr, DecidableEq

/-- The wire bytes of a token: the canonical prefix, then parameters as
semicolon-separated decimals, then intermediates, then the final byte (and
for DCS the payload and the ESC backslash terminator; for OSC the BEL or
ESC backslash terminator). -/
def Token.render : Token → List Nat
  | .text c => utf8Encode c
  | .ctl b => [b]
  | .escd inter final => [ESC] ++ inter ++ [final]
  | .csi ps inter final =>
      CSI ++ append_params (ps.map (fun p => [p])) ++ inter ++ [final]
  | .osc params bell => OSC ++ joinSemi params ++ (if bell then [BEL] else ST)
  | .dcs ps inter final payload =>
      DCS ++ append_params (ps.map (fun p => [p])) ++ inter ++ [final] ++ payload ++ ST

/-- All bytes are intermediate bytes (column 2 of the code chart). -/
def interOk (bs : List Nat) : Bool := bs.all (fun b => 0x20 ≤ b && b ≤ 0x2f)

/-- Well-formedness of a token: scalar values in Unicode range, parameter
values within u16, intermediates and finals in their columns, OSC parameter
bytes printable and semicolon-free, DCS payload free of ESC. -/
def Token.canonical : Token → Bool
  | .text c => (0x20 ≤ c && c ≤ 0x7e) || (0x80 ≤ c && c < 0xd800)
      || (0xe000 ≤ c && c < 0x110000)
  | .ctl b => b < 0x20 && b != 0x1b
  | .escd inter final => interOk inter && 0x30 ≤ final && final ≤ 0x7e &&
      (!inter.isEmpty || (final != 0x50 && final != 0x5b && final != 0x5d))
  | .csi ps inter final => ps.all (· ≤ 65535) && interOk inter
      && 0x40 ≤ final && final ≤ 0x7e
  | .osc params _bell => !params.isEmpty
      && params.all (fun p => p.all (fun b => 0x20 ≤ b && b != 0x3b))
  | .dcs ps inter final payload => ps.all (· ≤ 65535) && interOk inter
      && 0x40 ≤ final && final ≤ 0x7e && payload.all (fun b => b != 0x1b)

/-- True exactly for the OSC dispatches the filter captures: two parameters
with the first equal to the ASCII string 0. -/
def Token.isOsc0 : Token → Bool
  | .osc [p0, _] _ => p0 = [0x30]
  | _ => false

/-- Concatenated wire bytes of a token sequence. -/
def tokensRender (ts : List Token) : List Nat := (ts.map Token.render).flatten

/-- A sample canonical token sequence: CSI 105 m, CSI 0 m, a printable, a
newline, a DCS with payload, and an OSC 2 dispatch. -/
def demoTokens : List Token :=
  [Token.csi [105] [] 0x6d, Token.csi [0] [] 0x6d, Token.text 0x61, Token.ctl 0x0a,
    Token.dcs [1] [] 0x71 [0x62], Token.osc [[0x32], [0x78]] true]

end Filter

/-- Container metadata (src/podman.rs lines 6 to 12). -/
structure ContainerInfo where
  container_id : String
  container_name : String
  image_id : String
  image_name : String
deriving Repr, DecidableEq

/-- Split a byte list on a separator byte, as Rust slice split: any input
yields at least one (possibly empty) chunk. -/
def splitByte (sep : Nat) : List Nat → List (List Nat)
  | [] => [[]]
  | b :: rest =>
    if b = sep then [] :: splitByte sep rest
    else
      match splitByte sep rest with
      | h :: t => (b :: h) :: t
      | [] => [[b]]

namespace Pty

/-- Minimum check interval, 100 ms (src/pty.rs line 21). -/
def MIN_CHECK_INTERVAL : Nat := 100

/-- Maximum check interval, 60 s (src/pty.rs line 22). -/
def MAX_CHECK_INTERVAL : Nat := 60000

/-- Interval growth factor (src/pty.rs line 23). -/
def CHECK_INTERVAL_MULTIPLIER : Nat := 5

/-- The adaptive-timer fields of struct Pty (src/pty.rs lines 122 to 127),
times in milliseconds. -/
structure PtyTimer where
  check_interval : Nat
  last_check_time : Option Nat
deriving Repr, DecidableEq

/-- Timer state of a freshly created Pty (src/pty.rs line 144). -/
def PtyTimer.new : PtyTimer :=
  { check_interval := MIN_CHECK_INTERVAL, last_check_time := none }

/-- Pty.maybe_check (src/pty.rs lines 187 to 210), reduced to its timer
arithmetic: when the check is due it fires (the tracker update and title
flush happen here), multiplies the interval by 5 capped at 60 s, stamps the
time and returns the new interval as the wait; otherwise it returns the
time remaining until the next check.  The Bool records whether it fired. -/
def maybe_check (s : PtyTimer) (now : Nat) : PtyTimer × Nat × Bool :=
  let next_check_time :=
    match s.last_check_time with
    | some last => last + s.check_interval
    | none => now
  if next_check_time ≤ now then
    let ci := min MAX_CHECK_INTERVAL (s.check_interval * CHECK_INTERVAL_MULTIPLIER)
    ({ check_interval := ci, last_check_time := some now }, ci, true)
  else (s, next_check_time - now, false)

/-- The PTY-master-readable branch of Pty.handle (src/pty.rs lines 238 to
247), reduced to its timer effect: a read of at least one byte feeds the
filter, flushes, and resets the interval to the minimum; a zero-byte read
ends the loop (the Bool is the done flag). -/
def handle_master_read (s : PtyTimer) (bytesRead : Nat) : PtyTimer × Bool :=
  if bytesRead = 0 then (s, true)
  else ({ s with check_interval := MIN_CHECK_INTERVAL }, false)

/-- Check times of the event loop under continuous idleness: every epoll
wait times out, so the next maybe_check runs exactly at the next check time
and fires.  Lists the first n check times from a stamped timer state. -/
def idleCheckTimes : Nat → PtyTimer → List Nat
  | 0, _ => []
  | n + 1, s =>
    match s.last_check_time with
    | none => []
    | some last =>
      let t := last + s.check_interval
      (t :: idleCheckTimes n (maybe_check s t).1)

end Pty

namespace Track

/-- The kernel and process-introspection facts one tracker update consults,
as an oracle; an Err result is None (src/state.rs reads these through
Process::tty_process_group, Process::argv0, Process::cwd and
find_podman_peer). -/
structure TrackEnv where
  tty_pgrp : Int → Option Int
  argv0 : Int → Option String
  cwd : Int → Option String
  podman_peer : Int → Option (Int × Option ContainerInfo)

/-- The hard-coded TTY-forwarding launcher path (src/state.rs line 88). -/
def toolboxPath : String := "/home/otaylor/bin/toolbox"

mutual
/-- The alternating session/group chain (src/state.rs lines 24 to 118):
a SessionNode carries a pid and immutable container info, a GroupNode a
pgrp; each owns at most one child. -/
inductive SessionNode where
  | mk (pid : Int) (container_info : Option ContainerInfo) (child : Option GroupNode)

/-- A process-group node of the chain. -/
inductive GroupNode where
  | mk (pgrp : Int) (child : Option SessionNode)
end

/-- The pid of a session node. -/
def SessionNode.pid : SessionNode → Int
  | .mk p _ _ => p

/-- The immutable container info of a session node. -/
def SessionNode.container_info : SessionNode → Option ContainerInfo
  | .mk _ ci _ => ci

/-- The child group of a session node. -/
def SessionNode.child : SessionNode → Option GroupNode
  | .mk _ _ c => c

/-- The pgrp of a group node. -/
def GroupNode.pgrp : GroupNode → Int
  | .mk g _ => g

/-- The child session of a group node. -/
def GroupNode.child : GroupNode → Option SessionNode
  | .mk _ c => c

/-- SessionNode::update (src/state.rs lines 45 to 59), as the new child:
on a tty_pgrp read error the child is dropped; on success the cached child
is kept when its pgrp matches and replaced by a fresh Group otherwise. -/
def sessionUpdateChild (env : TrackEnv) (pid : Int) (child : Option GroupNode) :
    Option GroupNode :=
  match env.tty_pgrp pid with
  | some tty_pgrp =>
    match child with
    | some c => if tty_pgrp ≠ c.pgrp then some (.mk tty_pgrp none) else some c
    | none => some (.mk tty_pgrp none)
  | none => none

/-- GroupNode::update (src/state.rs lines 84 to 109), as the new child:
child_pid stays the sentinel -1 unless argv0 of the group leader reads as
the launcher path and find_podman_peer succeeds; with a found peer the
cached child is kept when its pid matches and replaced by a fresh Session
carrying the returned container info otherwise; with no peer the child is
dropped. -/
def groupUpdateChild (env : TrackEnv) (pgrp : Int) (child : Option SessionNode) :
    Option SessionNode :=
  let peer : Int × Option ContainerInfo :=
    match env.argv0 pgrp with
    | some a =>
      if a = toolboxPath then
        match env.podman_peer pgrp with
        | some p => p
        | none => (-1, none)
      else (-1, none)
    | none => (-1, none)
  if peer.1 ≠ -1 then
    match child with
    | some s => if peer.1 ≠ s.pid then some (.mk peer.1 peer.2 none) else some s
    | none => some (.mk peer.1 peer.2 none)
  else none

/-- Result of one walk of TerminalState::update: the updated chain, the
deepest visited group's pgrp, the deepest container info seen. -/
structure WalkOut where
  tree : SessionNode
  leaf_pgrp : Option Int
  deepest_ci : Option ContainerInfo

/-- The traversal loop of TerminalState::update (src/state.rs lines 142 to
157): record container info, update the session, descend into its group,
update the group, descend into its session, until a node has no child.
Fuel bounds the depth (the Rust loop is unbounded). -/
def walkSession : Nat → TrackEnv → SessionNode → Option ContainerInfo → WalkOut
  | fuel, env, s, ci =>
    let ci2 :=
      match s.container_info with
      | some c => some c
      | none => ci
    match sessionUpdateChild env s.pid s.child with
    | none => ⟨.mk s.pid s.container_info none, none, ci2⟩
    | some g =>
      match groupUpdateChild env g.pgrp g.child with
      | none => ⟨.mk s.pid s.container_info (some (.mk g.pgrp none)), some g.pgrp, ci2⟩
      | some s2 =>
        match fuel with
        | 0 => ⟨.mk s.pid s.container_info (some (.mk g.pgrp (some s2))), some g.pgrp, ci2⟩
        | n + 1 =>
          let w := walkSession n env s2 ci2
          ⟨.mk s.pid s.container_info (some (.mk g.pgrp (some w.tree))),
            some (w.leaf_pgrp.getD g.pgrp), w.deepest_ci⟩

/-- The three derived outputs of the tracker (src/state.rs lines 120 to
125), the cwd as a string. -/
structure TrackerOutputs where
  container_info : Option ContainerInfo
  foreground_argv0 : String
  foreground_cwd : String
deriving Repr, DecidableEq

/-- TerminalState::update (src/state.rs lines 137 to 177): walk the chain,
then set the three outputs: argv0 and cwd from the leaf group's pgrp (empty
on a read error or with no leaf), container info from the deepest session
carrying it. -/
def terminalUpdate (fuel : Nat) (env : TrackEnv) (root : SessionNode) :
    SessionNode × TrackerOutputs :=
  let w := walkSession fuel env root none
  match w.leaf_pgrp with
  | none => (w.tree, ⟨w.deepest_ci, "", ""⟩)
  | some pgrp =>
    (w.tree, ⟨w.deepest_ci, (env.argv0 pgrp).getD "", (env.cwd pgrp).getD ""⟩)

end Track

namespace Proc

/-- First index below n satisfying p, the ascending scan of
StatParser::parse (src/process.rs lines 81 to 87). -/
def findFirst (p : Nat → Bool) : Nat → Option Nat
  | 0 => none
  | n + 1 =>
    match findFirst p n with
    | some i => some i
    | none => if p n then some n else none

/-- Last index below n satisfying p, the descending scan of
StatParser::parse (src/process.rs lines 88 to 94). -/
def findLast (p : Nat → Bool) : Nat → Option Nat
  | 0 => none
  | n + 1 => if p n then some n else findLast p n

/-- The open-parenthesis scan: first i with a space at i - 1 and 0x28 at i,
starting from i = 1. -/
def openParenIdx (bs : List Nat) : Option Nat :=
  findFirst (fun i => decide (1 ≤ i) && bs.getD (i - 1) 0 == 0x20 && bs.getD i 0 == 0x28)
    bs.length

/-- The close-parenthesis scan: last i below length - 1 with 0x29 at i and
a space at i + 1. -/
def closeParenIdx (bs : List Nat) : Option Nat :=
  findLast (fun i => bs.getD i 0 == 0x29 && bs.getD (i + 1) 0 == 0x20) (bs.length - 1)

/-- Outcome of StatParser::parse: the field list on success, an error, or a
panic of the underlying Rust arithmetic and slicing. -/
inductive StatResult where
  | fields (fs : List (List Nat))
  | failure
  | crash
deriving Repr, DecidableEq

/-- StatParser::parse (src/process.rs lines 78 to 112).  On empty content
the Rust loop bound len - 1 underflows, a panic; when the found close
parenthesis precedes the open one the slice open + 1 .. close panics too.
Otherwise fields are: bytes before the space-open-paren, bytes between the
parentheses, and the bytes after close-paren-space split on single
spaces. -/
def statParse (bs : List Nat) : StatResult :=
  if bs.length = 0 then .crash
  else
    match openParenIdx bs, closeParenIdx bs with
    | some o, some c =>
      if o + 1 ≤ c then
        .fields ((bs.take (o - 1)) :: ((bs.drop (o + 1)).take (c - (o + 1)))
          :: splitByte 0x20 (bs.drop (c + 2)))
      else .crash
    | _, _ => .failure

/-- Rust i32::from_str on the bytes of a field: optional sign, at least one
digit, all digits, within the i32 range.  A field that is not valid UTF-8
also fails this test, matching the from_utf8 guard in get_stat_field. -/
def parseI32 (bs : List Nat) : Option Int :=
  let signDigits : Bool × List Nat :=
    match bs with
    | 0x2b :: rest => (false, rest)
    | 0x2d :: rest => (true, rest)
    | _ => (false, bs)
  let neg := signDigits.1
  let digits := signDigits.2
  if digits = [] then none
  else if digits.all (fun b => decide (0x30 ≤ b) && decide (b ≤ 0x39)) then
    let v := digits.foldl (fun acc b => acc * 10 + (b - 0x30)) (0 : Nat)
    if neg then (if v ≤ 2147483648 then some (-(v : Int)) else none)
    else (if v < 2147483648 then some (v : Int) else none)
  else none

/-- Outcome of Process::get_stat_field. -/
inductive FieldResult where
  | ok (v : Int)
  | failure
  | crash
deriving Repr, DecidableEq

/-- Process::get_stat_field (src/process.rs lines 189 to 205): parse the
stat content, check the index is in range, decode and parse the field;
every failure is an error. -/
def get_stat_field (bs : List Nat) (index : Nat) : FieldResult :=
  match statParse bs with
  | .crash => .crash
  | .failure => .failure
  | .fields fs =>
    if index < fs.length then
      match parseI32 (fs.getD index []) with
      | some v => .ok v
      | none => .failure
    else .failure

/-- The literal replacement string for a non-UTF-8 argv0, three question
marks. -/
def qqq : List Nat := [0x3f, 0x3f, 0x3f]

/-- Process::argv0 (src/process.rs lines 162 to 170): the first
NUL-separated field of cmdline, kept as its bytes when valid UTF-8 and
replaced by ??? otherwise; None models a panic of the unwrap on the first
split element. -/
def argv0OfCmdline (cmdline : List Nat) : Option (List Nat) :=
  match splitByte 0 cmdline with
  | [] => none
  | first :: _ => some (if utf8Valid first then first else qqq)

/-- A representative stat content, the bytes of
1234 (a b) S 35 40 50 60 70 80. -/
def demoStat : List Nat :=
  [0x31, 0x32, 0x33, 0x34, 0x20, 0x28, 0x61, 0x20, 0x62, 0x29, 0x20, 0x53,
   0x20, 0x33, 0x35, 0x20, 0x34, 0x30, 0x20, 0x35, 0x30, 0x20, 0x36, 0x30,
   0x20, 0x37, 0x30, 0x20, 0x38, 0x30]

end Proc

namespace Podman

/-- The process table and per-process reads find_podman_peer consults, as
an oracle; an Err is None.  processes is the /proc iteration order; inspect
is the external container inspector, where None models a failure to run the
command and some x its parsed outcome. -/
structure ProcEnv where
  processes : List Int
  pgrp_of : Int → Option Int
  argv0_of : Int → Option String
  sockets_of : Int → Option (List Nat)
  peer_of : Nat → Option Nat
  parent_of : Int → Option Int
  cmdline_of : Int → Option (List (List Nat))
  inspect : List Nat → Option (Option ContainerInfo)

/-- have_common_member (src/podman.rs lines 14 to 16). -/
def have_common_member (a b : List Nat) : Bool := a.any (fun v => b.contains v)

/-- The socket-inode union over the process group (src/podman.rs lines 19
to 31): members of the group in iteration order, socket listing errors
skipped. -/
def groupSockets (env : ProcEnv) (tty_pgrp : Int) : List Nat :=
  ((env.processes.filter (fun p => env.pgrp_of p == some tty_pgrp)).map
    (fun p => (env.sockets_of p).getD [])).flatten

/-- The peer-inode set (src/podman.rs lines 33 to 43): resolve each socket
inode, skip errors, discard zero peers. -/
def peerSockets (env : ProcEnv) (tty_pgrp : Int) : List Nat :=
  (groupSockets env tty_pgrp).filterMap (fun ino =>
    match env.peer_of ino with
    | some peer => if peer ≠ 0 then some peer else none
    | none => none)

/-- The supervisor test (src/podman.rs lines 45 to 55): argv0 reads as
/usr/bin/conmon and the process's own socket inodes meet the peer set;
any read error makes the test false. -/
def conmonPred (env : ProcEnv) (peers : List Nat) (p : Int) : Bool :=
  match env.argv0_of p with
  | some a =>
    if a = "/usr/bin/conmon" then
      match env.sockets_of p with
      | some socks => have_common_member socks peers
      | none => false
    else false
  | none => false

/-- The bytes of the flag -c. -/
def dashC : List Nat := [0x2d, 0x63]

/-- The cmdline scan of get_container_info (src/podman.rs lines 117 to
127): the argument following the first -c that has one. -/
def scanDashC : List (List Nat) → Option (List Nat)
  | [] => none
  | a :: rest =>
    if a = dashC then
      match rest with
      | id :: _ => some id
      | [] => none
    else scanDashC rest

/-- get_container_info (src/podman.rs lines 113 to 130): read the
supervisor's cmdline (an error propagates), find the container id after -c
and ask the inspector; with no -c the result is Ok(None). -/
def get_container_info (env : ProcEnv) (pid : Int) : Option (Option ContainerInfo) :=
  match env.cmdline_of pid with
  | none => none
  | some args =>
    match scanDashC args with
    | some id => env.inspect id
    | none => some none

/-- find_podman_peer (src/podman.rs lines 18 to 84): union the group's
socket inodes, resolve peers discarding zeros, find the first supervisor
process, query the inspector through its cmdline, and return the first
process whose parent is the supervisor; a missing supervisor or missing
child is an error. -/
def find_podman_peer (env : ProcEnv) (tty_pgrp : Int) :
    Except Unit (Int × Option ContainerInfo) :=
  let peers := peerSockets env tty_pgrp
  match env.processes.find? (conmonPred env peers) with
  | none => .error ()
  | some conmon =>
    match get_container_info env conmon with
    | none => .error ()
    | some ci =>
      match env.processes.find? (fun p => env.parent_of p == some conmon) with
      | some child => .ok (child, ci)
      | none => .error ()

/-- A concrete container-info record for test environments. -/
def demoCI : ContainerInfo := ⟨"c1", "n1", "i1", "in1"⟩

/-- A concrete process table: pid 10 sits in group 5 with socket 100 whose
peer is 200, pid 20 is the conmon supervisor owning socket 200 and started
with -c a, pid 30 is the supervised child. -/
def demoEnv : ProcEnv :=
  { processes := [10, 20, 30]
    pgrp_of := fun p => if p = 10 then some 5 else none
    argv0_of := fun p => if p = 20 then some "/usr/bin/conmon" else none
    sockets_of := fun p =>
      if p = 10 then some [100] else if p = 20 then some [200] else none
    peer_of := fun s => if s = 100 then some 200 else none
    parent_of := fun p => if p = 30 then some 20 else none
    cmdline_of := fun p => if p = 20 then some [[0x2d, 0x63], [0x61]] else none
    inspect := fun i => if i = [0x61] then some (some demoCI) else none }

end Podman

namespace Filter

/-- C2: an OSC dispatch with exactly two parameters whose first is the ASCII
string 0 emits nothing; its second parameter becomes the new inbound title
when it is valid UTF-8, and an invalid second parameter leaves the title
unchanged.  Every other OSC dispatch is re-emitted in full, terminated by
BEL when BEL-terminated and by ESC backslash otherwise, leaving the title
unchanged. -/
theorem osc_dispatch_spec (s : FilterState) (params : List (List Nat)) (bell : Bool) :
    (∀ p1, params = [[0x30], p1] →
      (s.osc_dispatch params bell).buffer = s.buffer ∧
      (utf8Valid p1 = true → (s.osc_dispatch params bell).in_window_title = p1) ∧
      (utf8Valid p1 = false →
        (s.osc_dispatch params bell).in_window_title = s.in_window_title)) ∧
    ((∀ p1, params ≠ [[0x30], p1]) →
      (s.osc_dispatch params bell).buffer
        = s.buffer ++ (OSC ++ joinSemi params ++ (if bell then [BEL] else ST)) ∧
      (s.osc_dispatch params bell).in_window_title = s.in_window_title) := by
  constructor
  · rintro p1 rfl
    simp only [FilterState.osc_dispatch, if_pos rfl]
    refine ⟨rfl, ?_, ?_⟩ <;> intro h <;> simp [h]
  · intro hne
    match params with
    | [] => simp [FilterState.osc_dispatch, FilterState.append_many]
    | [p0] => simp [FilterState.osc_dispatch, FilterState.append_many]
    | [p0, p1] =>
      have : p0 ≠ [0x30] := fun h => hne p1 (by rw [h])
      simp [FilterState.osc_dispatch, this, FilterState.append_many]
    | p0 :: p1 :: p2 :: rest => simp [FilterState.osc_dispatch, FilterState.append_many]

/-- Witness for osc_dispatch_spec at concrete inputs: a two-parameter OSC 0
dispatch with valid UTF-8 payload is captured, an OSC 2 dispatch is
re-emitted with BEL. -/
theorem osc_dispatch_spec_witness :
    (FilterState.new.osc_dispatch [[0x30], [0x68, 0x69]] true).buffer = [] ∧
    (FilterState.new.osc_dispatch [[0x30], [0x68, 0x69]] true).in_window_title = [0x68, 0x69] ∧
    (FilterState.new.osc_dispatch [[0x32], [0x78]] true).buffer
      = [0x1b, 0x5d, 0x32, 0x3b, 0x78, 0x07] := by
  have h1 := osc_dispatch_spec FilterState.new [[0x30], [0x68, 0x69]] true
  have h2 := osc_dispatch_spec FilterState.new [[0x32], [0x78]] true
  refine ⟨(h1.1 _ rfl).1, (h1.1 _ rfl).2.1 (by decide), ?_⟩
  rw [(h2.2 (by intro p1 hcon; simp at hcon)).1]
  decide

/-- Setting the already-recorded outbound title is the identity. -/
theorem set_out_noop (s : FilterState) (t : List Nat)
    (h : s.out_window_title = t) : s.set_out_window_title t = s := by
  simp [FilterState.set_out_window_title, h]

/-- After a set with a different title, the recorded title is the new one. -/
theorem out_title_after_set (s : FilterState) (t : List Nat)
    (h : s.out_window_title ≠ t) :
    (s.set_out_window_title t).out_window_title = t := by
  by_cases hd : s.in_dcs <;>
    simp [FilterState.set_out_window_title, h, hd,
      FilterState.append_window_title, FilterState.append_many]

/-- C3: setting the outbound title to the currently recorded outbound title
appends no bytes (so a second call with the same title appends nothing);
with a new title and in_dcs false it appends exactly ESC ] 0 ; t ESC
backslash and records t; with a new title and in_dcs true it only stores t
and raises the pending flag; and on a pending unhook the stored title is
emitted immediately after the DCS terminator, before any other output. -/
theorem set_out_window_title_spec (s : FilterState) (t : List Nat) :
    (t = s.out_window_title → s.set_out_window_title t = s) ∧
    ((s.set_out_window_title t).set_out_window_title t).buffer
      = (s.set_out_window_title t).buffer ∧
    (t ≠ s.out_window_title → s.in_dcs = false →
      (s.set_out_window_title t).buffer = s.buffer ++ titleSeq t ∧
      (s.set_out_window_title t).out_window_title = t ∧
      (s.set_out_window_title t).out_window_title_pending = s.out_window_title_pending) ∧
    (t ≠ s.out_window_title → s.in_dcs = true →
      (s.set_out_window_title t).buffer = s.buffer ∧
      (s.set_out_window_title t).out_window_title = t ∧
      (s.set_out_window_title t).out_window_title_pending = true) ∧
    (s.out_window_title_pending = true →
      s.unhook.buffer = s.buffer ++ ST ++ titleSeq s.out_window_title) := by
  refine ⟨fun h => set_out_noop s t h.symm, ?_, ?_, ?_, ?_⟩
  · by_cases h : s.out_window_title = t
    · rw [set_out_noop s t h, set_out_noop s t h]
    · rw [set_out_noop _ t (out_title_after_set s t h)]
  · intro h hd
    have hne : s.out_window_title ≠ t := Ne.symm h
    refine ⟨?_, out_title_after_set s t hne, ?_⟩ <;>
      simp [FilterState.set_out_window_title, hne, hd,
        FilterState.append_window_title, FilterState.append_many, titleSeq]
  · intro h hd
    have hne : s.out_window_title ≠ t := Ne.symm h
    refine ⟨?_, out_title_after_set s t hne, ?_⟩ <;>
      simp [FilterState.set_out_window_title, hne, hd]
  · intro hp
    simp [FilterState.unhook, hp, FilterState.append_window_title,
      FilterState.append_many, titleSeq]

/-- Witness for set_out_window_title_spec: from the initial state, setting a
one-byte title appends exactly the synthesized sequence, and from a state in
a DCS the emission is deferred with the pending flag raised. -/
theorem set_out_window_title_spec_witness :
    (FilterState.new.set_out_window_title [0x58]).buffer = titleSeq [0x58] ∧
    (FilterState.new.set_out_window_title [0x58]).out_window_title = [0x58] ∧
    (({ FilterState.new with in_dcs := true }).set_out_window_title [0x58]).buffer = [] ∧
    (({ FilterState.new with in_dcs := true
        }).set_out_window_title [0x58]).out_window_title_pending = true := by
  have h1 := set_out_window_title_spec FilterState.new [0x58]
  have h2 := set_out_window_title_spec { FilterState.new with in_dcs := true } [0x58]
  refine ⟨?_, (h1.2.2.1 (by decide) (by decide)).2.1, (h2.2.2.2.1 (by decide) (by decide)).1,
    (h2.2.2.2.1 (by decide) (by decide)).2.2⟩
  rw [(h1.2.2.1 (by decide) (by decide)).1]
  decide

/-- C4 failing trace: open a DCS, request title X (deferred), close the DCS.
The unhook emits the deferred title but leaves out_window_title_pending set
while in_dcs is false, violating the invariant; a second DCS then re-emits
the same title once more at its unhook. -/
theorem unhook_leaves_pending_set :
    ((Filter.fill (Filter.set_out_window_title (Filter.fill Filter.new dcsOpen) [0x58])
        dcsClose).state.out_window_title_pending = true ∧
      (Filter.fill (Filter.set_out_window_title (Filter.fill Filter.new dcsOpen) [0x58])
        dcsClose).state.in_dcs = false) ∧
    (Filter.fill (Filter.set_out_window_title (Filter.fill Filter.new dcsOpen) [0x58])
        (dcsClose ++ dcsOpen ++ dcsClose)).state.buffer
      = dcsOpen ++ dcsClose ++ titleSeq [0x58] ++ dcsOpen ++ dcsClose ++ titleSeq [0x58] := by
  decide

/-- Filling distributes over concatenation of inputs. -/
theorem fill_append (f : Filter) (a b : List Nat) :
    f.fill (a ++ b) = (f.fill a).fill b := by
  simp [Filter.fill]

/-- The divisor loop returns a power of ten exceeding its argument. -/
theorem findDivisor_pow : ∀ (n w j : Nat), w + 1 - 10 ^ j ≤ n →
    ∃ k, findDivisor w (10 ^ j) = 10 ^ k ∧ w < 10 ^ k := by
  intro n
  induction n with
  | zero =>
    intro w j h
    have ha : 0 < 10 ^ j := pow_pos (by norm_num) j
    refine ⟨j, ?_, by omega⟩
    rw [findDivisor, if_neg (by omega)]
  | succ n ih =>
    intro w j h
    have ha : 0 < 10 ^ j := pow_pos (by norm_num) j
    by_cases hc : 0 < 10 ^ j ∧ 10 ^ j ≤ w
    · rw [findDivisor, if_pos hc]
      have hpow : 10 ^ j * 10 = 10 ^ (j + 1) := (pow_succ 10 j).symm
      rw [hpow]
      apply ih
      have h1 : 10 ^ (j + 1) = 10 * 10 ^ j := by ring
      omega
    · exact ⟨j, by rw [findDivisor, if_neg hc], by omega⟩

/-- The digits of append_u16 come from the digit loop at a power of ten
bounding the value. -/
theorem append_u16_pow (v : Nat) :
    ∃ k, append_u16 v = digitsLoop v (10 ^ k) ∧ v < 10 * 10 ^ k := by
  obtain ⟨k, hk, hlt⟩ := findDivisor_pow (v / 10 + 1) (v / 10) 0 (by omega)
  rw [pow_zero] at hk
  refine ⟨k, by rw [append_u16, hk], ?_⟩
  have := (Nat.div_lt_iff_lt_mul (by norm_num : (0:Nat) < 10)).mp hlt
  omega

/-- Unfolding digitAccum below the cap. -/
theorem digitAccum_eq (cur d : Nat) (h : cur * 10 + d ≤ 65535) :
    digitAccum cur d = cur * 10 + d := by
  unfold digitAccum
  rw [if_pos h]

/-- Stepping the parser on a digit byte in parameter collection (with no
intermediates yet) accumulates into the current parameter. -/
theorem advance_seq_digit (isDcs : Bool) (st : FilterState) (ps : List (List Nat))
    (sub : List Nat) (cur : Nat) (seen : Bool) (b : Nat)
    (hb : 0x30 ≤ b ∧ b ≤ 0x39) :
    advance ⟨.seqParam isDcs ps sub cur seen [], st⟩ b =
      ⟨.seqParam isDcs ps sub (digitAccum cur (b - 0x30)) true [], st⟩ := by
  have h1 : ¬(b = 0x1b) := by omega
  have h2 : ¬(b < 0x20) := by omega
  have h3 : ¬(0x20 ≤ b ∧ b ≤ 0x2f) := by omega
  simp only [advance, if_neg h1, if_neg h2, if_neg h3, if_pos hb, if_pos rfl, if_true]

/-- Feeding a run of decimal digits in parameter collection accumulates the
written value into the current parameter. -/
theorem fill_digits (isDcs : Bool) (st : FilterState) :
    ∀ (k v acc : Nat) (ps : List (List Nat)) (sub : List Nat) (seen : Bool),
    v < 10 * 10 ^ k → acc * (10 * 10 ^ k) + v ≤ 65535 →
    Filter.fill ⟨.seqParam isDcs ps sub acc seen [], st⟩ (digitsLoop v (10 ^ k)) =
      ⟨.seqParam isDcs ps sub (acc * (10 * 10 ^ k) + v) true [], st⟩ := by
  intro k
  induction k with
  | zero =>
    intro v acc ps sub seen hv hacc
    rw [pow_zero] at *
    have e1 : digitsLoop v 1 = [0x30 + v] := by
      rw [digitsLoop, if_neg (show ¬(1 = 0) by omega)]
      rw [show (1:Nat) / 10 = 0 from rfl, digitsLoop, if_pos rfl, Nat.div_one]
    rw [e1]
    simp only [Filter.fill, List.foldl_cons, List.foldl_nil]
    rw [advance_seq_digit isDcs st ps sub acc seen (0x30 + v) (by omega)]
    rw [digitAccum_eq acc (0x30 + v - 0x30) (by omega)]
    have hval : acc * 10 + (0x30 + v - 0x30) = acc * (10 * 1) + v := by omega
    rw [hval]
  | succ k ih =>
    intro v acc ps sub seen hv hacc
    have hD : (0:Nat) < 10 ^ (k + 1) := pow_pos (by norm_num) _
    obtain ⟨d, r, rfl, hr⟩ : ∃ d r, v = 10 ^ (k + 1) * d + r ∧ r < 10 ^ (k + 1) :=
      ⟨v / 10 ^ (k + 1), v % 10 ^ (k + 1), (Nat.div_add_mod v _).symm, Nat.mod_lt _ hD⟩
    have hdlt : d < 10 := by
      by_contra hcon
      push_neg at hcon
      have : 10 ^ (k + 1) * 10 ≤ 10 ^ (k + 1) * d := Nat.mul_le_mul_left _ hcon
      omega
    have hdiv : (10 ^ (k + 1) * d + r) / 10 ^ (k + 1) = d := by
      rw [Nat.mul_add_div hD, Nat.div_eq_of_lt hr, Nat.add_zero]
    have hmod : (10 ^ (k + 1) * d + r) % 10 ^ (k + 1) = r := by
      rw [Nat.mul_add_mod, Nat.mod_eq_of_lt hr]
    rw [digitsLoop, if_neg (show ¬(10 ^ (k + 1) = 0) by omega), hdiv, hmod]
    have hdiv10 : 10 ^ (k + 1) / 10 = 10 ^ k := by
      rw [pow_succ]
      exact Nat.mul_div_cancel _ (by norm_num)
    rw [hdiv10]
    simp only [Filter.fill, List.foldl_cons]
    have hcurb : acc * 10 + d ≤ 65535 := by
      have e : (acc * 10 + d) * 10 ^ (k + 1)
          = acc * (10 * 10 ^ (k + 1)) + 10 ^ (k + 1) * d := by ring
      have e2 : acc * 10 + d ≤ (acc * 10 + d) * 10 ^ (k + 1) :=
        Nat.le_mul_of_pos_right _ hD
      omega
    have step1 : advance ⟨.seqParam isDcs ps sub acc seen [], st⟩ (0x30 + d)
        = ⟨.seqParam isDcs ps sub (acc * 10 + d) true [], st⟩ := by
      rw [advance_seq_digit isDcs st ps sub acc seen (0x30 + d) (by omega)]
      rw [digitAccum_eq acc (0x30 + d - 0x30) (by omega)]
      have hval : acc * 10 + (0x30 + d - 0x30) = acc * 10 + d := by omega
      rw [hval]
    rw [step1]
    have hacc2 : (acc * 10 + d) * (10 * 10 ^ k) + r ≤ 65535 := by
      have e : (acc * 10 + d) * (10 * 10 ^ k)
          = acc * (10 * (10 * 10 ^ k)) + (10 * 10 ^ k) * d := by ring
      have e3 : acc * (10 * 10 ^ (k + 1)) = acc * (10 * (10 * 10 ^ k)) := by
        rw [pow_succ]
        ring
      have e4 : 10 ^ (k + 1) * d = (10 * 10 ^ k) * d := by
        rw [pow_succ]
        ring
      omega
    have hrlt2 : r < 10 * 10 ^ k := by
      have : 10 ^ (k + 1) = 10 * 10 ^ k := by
        rw [pow_succ]
        ring
      omega
    have happ := ih r (acc * 10 + d) ps sub true hrlt2 hacc2
    rw [show List.foldl advance
          (⟨.seqParam isDcs ps sub (acc * 10 + d) true [], st⟩ : Filter)
          (digitsLoop r (10 ^ k))
        = Filter.fill ⟨.seqParam isDcs ps sub (acc * 10 + d) true [], st⟩
          (digitsLoop r (10 ^ k)) from rfl, happ]
    have hval : (acc * 10 + d) * (10 * 10 ^ k) + r
        = acc * (10 * 10 ^ (k + 1)) + (10 ^ (k + 1) * d + r) := by
      have e : (acc * 10 + d) * (10 * 10 ^ k)
          = acc * (10 * (10 * 10 ^ k)) + (10 * 10 ^ k) * d := by ring
      have e3 : acc * (10 * 10 ^ (k + 1)) = acc * (10 * (10 * 10 ^ k)) := by
        rw [pow_succ]
        ring
      have e4 : 10 ^ (k + 1) * d = (10 * 10 ^ k) * d := by
        rw [pow_succ]
        ring
      omega
    rw [hval]

/-- Feeding the minimal decimal digits of a value at most 65535 from a fresh
current parameter yields exactly that parameter value. -/
theorem fill_u16 (isDcs : Bool) (st : FilterState) (v : Nat) (hv : v ≤ 65535)
    (ps : List (List Nat)) (sub : List Nat) (seen : Bool) :
    Filter.fill ⟨.seqParam isDcs ps sub 0 seen [], st⟩ (append_u16 v) =
      ⟨.seqParam isDcs ps sub v true [], st⟩ := by
  obtain ⟨k, hk, hlt⟩ := append_u16_pow v
  rw [hk]
  have := fill_digits isDcs st k v 0 ps sub seen hlt (by omega)
  simpa using this

/-- Stepping the parser on a semicolon in parameter collection closes the
current parameter. -/
theorem advance_seq_semi (isDcs : Bool) (st : FilterState) (ps : List (List Nat))
    (sub : List Nat) (cur : Nat) (seen : Bool) :
    advance ⟨.seqParam isDcs ps sub cur seen [], st⟩ 0x3b =
      ⟨.seqParam isDcs (ps ++ [sub ++ [cur]]) [] 0 true [], st⟩ := rfl

/-- Stepping the parser on an intermediate byte in parameter collection
collects it. -/
theorem advance_seq_inter (isDcs : Bool) (st : FilterState) (ps : List (List Nat))
    (sub : List Nat) (cur : Nat) (seen : Bool) (i : List Nat) (b : Nat)
    (hb : 0x20 ≤ b ∧ b ≤ 0x2f) :
    advance ⟨.seqParam isDcs ps sub cur seen i, st⟩ b =
      ⟨.seqParam isDcs ps sub cur seen (i ++ [b]), st⟩ := by
  have h1 : ¬(b = 0x1b) := by omega
  have h2 : ¬(b < 0x20) := by omega
  simp only [advance, if_neg h1, if_neg h2, if_pos hb]

/-- Stepping the parser on a final byte in parameter collection dispatches:
to csi_dispatch and Ground for CSI, to hook and DCS passthrough for DCS. -/
theorem advance_seq_final (isDcs : Bool) (st : FilterState) (ps : List (List Nat))
    (sub : List Nat) (cur : Nat) (seen : Bool) (i : List Nat) (b : Nat)
    (hb : 0x40 ≤ b ∧ b ≤ 0x7e) :
    advance ⟨.seqParam isDcs ps sub cur seen i, st⟩ b =
      if isDcs then ⟨.dcsPass, st.hook (finishParams ps sub cur seen) i b⟩
      else ⟨.ground, st.csi_dispatch (finishParams ps sub cur seen) i b⟩ := by
  have h1 : ¬(b = 0x1b) := by omega
  have h2 : ¬(b < 0x20) := by omega
  have h3 : ¬(0x20 ≤ b ∧ b ≤ 0x2f) := by omega
  have h4 : ¬(0x30 ≤ b ∧ b ≤ 0x39) := by omega
  have h5 : ¬(b = 0x3a) := by omega
  have h6 : ¬(b = 0x3b) := by omega
  simp only [advance, if_neg h1, if_neg h2, if_neg h3, if_neg h4, if_neg h5, if_neg h6,
    if_pos hb]

/-- Stepping the parser in Ground on an ASCII printable prints it. -/
theorem advance_ground_print (st : FilterState) (b : Nat)
    (hb : 0x20 ≤ b ∧ b ≤ 0x7e) :
    advance ⟨.ground, st⟩ b = ⟨.ground, st.print b⟩ := by
  have h1 : ¬(b = 0x1b) := by omega
  have h2 : ¬(b < 0x20) := by omega
  simp only [advance, if_neg h1, if_neg h2, if_pos hb.2]

/-- Stepping the parser in Ground on a C0 byte other than ESC executes it. -/
theorem advance_ground_exec (st : FilterState) (b : Nat)
    (hb : b < 0x20 ∧ b ≠ 0x1b) :
    advance ⟨.ground, st⟩ b = ⟨.ground, st.execute b⟩ := by
  have h1 : ¬(b = 0x1b) := hb.2
  simp only [advance, if_neg h1, if_pos hb.1]

/-- Stepping the parser in Escape on an intermediate byte starts
intermediate collection. -/
theorem advance_escape_inter (st : FilterState) (b : Nat)
    (hb : 0x20 ≤ b ∧ b ≤ 0x2f) :
    advance ⟨.escape, st⟩ b = ⟨.escapeInter [b], st⟩ := by
  have h1 : ¬(b = 0x5b) := by omega
  have h2 : ¬(b = 0x5d) := by omega
  have h3 : ¬(b = 0x50) := by omega
  have h4 : ¬(b = 0x1b) := by omega
  have h5 : ¬(b < 0x20) := by omega
  simp only [advance, if_neg h1, if_neg h2, if_neg h3, if_neg h4, if_neg h5, if_pos hb]

/-- Stepping the parser in Escape on a plain final byte dispatches the
escape sequence with no intermediates. -/
theorem advance_escape_final (st : FilterState) (b : Nat)
    (hb : 0x30 ≤ b ∧ b ≤ 0x7e) (hn1 : b ≠ 0x50) (hn2 : b ≠ 0x5b) (hn3 : b ≠ 0x5d) :
    advance ⟨.escape, st⟩ b = ⟨.ground, st.esc_dispatch [] b⟩ := by
  have h4 : ¬(b = 0x1b) := by omega
  have h5 : ¬(b < 0x20) := by omega
  have h6 : ¬(0x20 ≤ b ∧ b ≤ 0x2f) := by omega
  simp only [advance, if_neg hn2, if_neg hn3, if_neg hn1, if_neg h4, if_neg h5, if_neg h6,
    if_pos hb.2]

/-- Stepping the parser in escape-intermediate collection on another
intermediate byte collects it. -/
theorem advance_escInter_inter (st : FilterState) (i : List Nat) (b : Nat)
    (hb : 0x20 ≤ b ∧ b ≤ 0x2f) :
    advance ⟨.escapeInter i, st⟩ b = ⟨.escapeInter (i ++ [b]), st⟩ := by
  have h1 : ¬(b = 0x1b) := by omega
  have h2 : ¬(b < 0x20) := by omega
  simp only [advance, if_neg h1, if_neg h2, if_pos hb]

/-- Stepping the parser in escape-intermediate collection on a final byte
dispatches the escape sequence with the collected intermediates. -/
theorem advance_escInter_final (st : FilterState) (i : List Nat) (b : Nat)
    (hb : 0x30 ≤ b ∧ b ≤ 0x7e) :
    advance ⟨.escapeInter i, st⟩ b = ⟨.ground, st.esc_dispatch i b⟩ := by
  have h1 : ¬(b = 0x1b) := by omega
  have h2 : ¬(b < 0x20) := by omega
  have h3 : ¬(0x20 ≤ b ∧ b ≤ 0x2f) := by omega
  simp only [advance, if_neg h1, if_neg h2, if_neg h3, if_pos hb.2]

/-- Stepping the parser in OSC collection on an ordinary byte appends it to
the current parameter. -/
theorem advance_osc_byte (st : FilterState) (ps : List (List Nat)) (cur : List Nat)
    (b : Nat) (hb : 0x20 ≤ b ∧ b ≠ 0x3b) :
    advance ⟨.oscString ps cur, st⟩ b = ⟨.oscString ps (cur ++ [b]), st⟩ := by
  have h1 : ¬(b = 0x07) := by omega
  have h2 : ¬(b = 0x1b) := by omega
  simp only [advance, if_neg h1, if_neg h2, if_neg hb.2, if_pos hb.1]

/-- Stepping the parser in DCS passthrough on a byte other than ESC puts it
verbatim. -/
theorem advance_dcsPass_put (st : FilterState) (b : Nat) (hb : b ≠ 0x1b) :
    advance ⟨.dcsPass, st⟩ b = ⟨.dcsPass, st.putNat b⟩ := by
  simp only [advance, if_neg hb]

/-- Feeding a run of intermediate bytes in parameter collection collects
them in order. -/
theorem fill_seq_inter (isDcs : Bool) (st : FilterState) (ps : List (List Nat))
    (sub : List Nat) (cur : Nat) (seen : Bool) :
    ∀ (bs : List Nat) (i : List Nat), (∀ b ∈ bs, 0x20 ≤ b ∧ b ≤ 0x2f) →
    Filter.fill ⟨.seqParam isDcs ps sub cur seen i, st⟩ bs =
      ⟨.seqParam isDcs ps sub cur seen (i ++ bs), st⟩ := by
  intro bs
  induction bs with
  | nil => intro i _; simp [Filter.fill]
  | cons b bs ih =>
    intro i hall
    have hb := hall b (List.mem_cons_self b bs)
    simp only [Filter.fill, List.foldl_cons]
    rw [advance_seq_inter isDcs st ps sub cur seen i b hb]
    have := ih (i ++ [b]) (fun x hx => hall x (List.mem_cons_of_mem b hx))
    simp only [Filter.fill] at this
    rw [this]
    simp

/-- joinSemi on a list with a nonempty tail splits off the head chunk. -/
theorem joinSemi_cons (b : List Nat) (bs : List (List Nat)) (h : bs ≠ []) :
    joinSemi (b :: bs) = b ++ [0x3b] ++ joinSemi bs := by
  cases bs with
  | nil => exact absurd rfl h
  | cons c cs => rfl

/-- Feeding the semicolon-separated decimal rendering of a nonempty
parameter list collects exactly those parameters. -/
theorem fill_params (isDcs : Bool) (st : FilterState) :
    ∀ (ps : List Nat) (p : Nat) (PS : List (List Nat)) (seen : Bool),
    (∀ q ∈ p :: ps, q ≤ 65535) →
    Filter.fill ⟨.seqParam isDcs PS [] 0 seen [], st⟩
        (joinSemi ((p :: ps).map append_u16)) =
      ⟨.seqParam isDcs (PS ++ ((p :: ps).dropLast.map (fun q => [q])))
        [] ((p :: ps).getLast (List.cons_ne_nil p ps)) true [], st⟩ := by
  intro ps
  induction ps with
  | nil =>
    intro p PS seen hall
    have hp := hall p (List.mem_cons_self p [])
    simp only [List.map_cons, List.map_nil]
    have hj : joinSemi [append_u16 p] = append_u16 p := rfl
    rw [hj, fill_u16 isDcs st p hp PS [] seen]
    simp
  | cons p2 ps2 ih =>
    intro p PS seen hall
    have hp := hall p (List.mem_cons_self p (p2 :: ps2))
    simp only [List.map_cons]
    rw [joinSemi_cons (append_u16 p) (append_u16 p2 :: ps2.map append_u16) (by simp)]
    rw [show append_u16 p ++ [0x3b] ++ joinSemi (append_u16 p2 :: ps2.map append_u16)
        = append_u16 p ++ ([0x3b] ++ joinSemi (append_u16 p2 :: ps2.map append_u16))
      from by simp]
    rw [fill_append, fill_u16 isDcs st p hp PS [] seen]
    rw [show ([0x3b] ++ joinSemi (append_u16 p2 :: ps2.map append_u16))
        = (0x3b :: (joinSemi (append_u16 p2 :: ps2.map append_u16))) from rfl]
    simp only [Filter.fill, List.foldl_cons]
    rw [advance_seq_semi isDcs st PS [] p true]
    have := ih p2 (PS ++ [[] ++ [p]]) true
      (fun q hq => hall q (List.mem_cons_of_mem p hq))
    simp only [Filter.fill, List.map_cons] at this
    rw [this]
    have hdrop : (p :: p2 :: ps2).dropLast = p :: (p2 :: ps2).dropLast := rfl
    have hlast : (p :: p2 :: ps2).getLast (List.cons_ne_nil p (p2 :: ps2))
        = (p2 :: ps2).getLast (List.cons_ne_nil p2 ps2) :=
      List.getLast_cons (List.cons_ne_nil p2 ps2)
    rw [hdrop, hlast]
    simp

/-- Feeding ordinary bytes in OSC collection appends them to the current
parameter in order. -/
theorem fill_osc_bytes (st : FilterState) (PS : List (List Nat)) :
    ∀ (bs cur : List Nat), (∀ b ∈ bs, 0x20 ≤ b ∧ b ≠ 0x3b) →
    Filter.fill ⟨.oscString PS cur, st⟩ bs = ⟨.oscString PS (cur ++ bs), st⟩ := by
  intro bs
  induction bs with
  | nil => intro cur _; simp [Filter.fill]
  | cons b bs ih =>
    intro cur hall
    simp only [Filter.fill, List.foldl_cons]
    rw [advance_osc_byte st PS cur b (hall b (List.mem_cons_self b bs))]
    have := ih (cur ++ [b]) (fun x hx => hall x (List.mem_cons_of_mem b hx))
    simp only [Filter.fill] at this
    rw [this]
    simp

/-- Feeding the semicolon-joined OSC parameter chunks collects exactly those
parameters. -/
theorem fill_osc_params (st : FilterState) :
    ∀ (ps : List (List Nat)) (p : List Nat) (PS : List (List Nat)),
    (∀ q ∈ p :: ps, ∀ b ∈ q, 0x20 ≤ b ∧ b ≠ 0x3b) →
    Filter.fill ⟨.oscString PS [], st⟩ (joinSemi (p :: ps)) =
      ⟨.oscString (PS ++ (p :: ps).dropLast)
        ((p :: ps).getLast (List.cons_ne_nil p ps)), st⟩ := by
  intro ps
  induction ps with
  | nil =>
    intro p PS hall
    have hj : joinSemi [p] = p := rfl
    rw [hj, fill_osc_bytes st PS p [] (hall p (List.mem_cons_self p []))]
    simp
  | cons p2 ps2 ih =>
    intro p PS hall
    rw [joinSemi_cons p (p2 :: ps2) (by simp)]
    rw [show p ++ [0x3b] ++ joinSemi (p2 :: ps2) = p ++ ([0x3b] ++ joinSemi (p2 :: ps2))
      from by simp]
    rw [fill_append, fill_osc_bytes st PS p [] (hall p (List.mem_cons_self p (p2 :: ps2)))]
    rw [show ([0x3b] ++ joinSemi (p2 :: ps2)) = (0x3b :: joinSemi (p2 :: ps2)) from rfl]
    simp only [Filter.fill, List.foldl_cons]
    have hsemi : advance ⟨.oscString PS ([] ++ p), st⟩ 0x3b
        = ⟨.oscString (PS ++ [[] ++ p]) [], st⟩ := rfl
    rw [hsemi]
    have := ih p2 (PS ++ [[] ++ p]) (fun q hq => hall q (List.mem_cons_of_mem p hq))
    simp only [Filter.fill] at this
    rw [this]
    have hdrop : (p :: p2 :: ps2).dropLast = p :: (p2 :: ps2).dropLast := rfl
    have hlast : (p :: p2 :: ps2).getLast (List.cons_ne_nil p (p2 :: ps2))
        = (p2 :: ps2).getLast (List.cons_ne_nil p2 ps2) :=
      List.getLast_cons (List.cons_ne_nil p2 ps2)
    rw [hdrop, hlast]
    simp

/-- Feeding DCS payload bytes in passthrough re-emits them verbatim. -/
theorem fill_dcs_payload (st : FilterState) :
    ∀ (bs : List Nat), (∀ b ∈ bs, b ≠ 0x1b) →
    Filter.fill ⟨.dcsPass, st⟩ bs = ⟨.dcsPass, st.append_many bs⟩ := by
  intro bs
  induction bs generalizing st with
  | nil => simp [Filter.fill, FilterState.append_many]
  | cons b bs ih =>
    intro hall
    simp only [Filter.fill, List.foldl_cons]
    rw [advance_dcsPass_put st b (hall b (List.mem_cons_self b bs))]
    have := ih (st.putNat b) (fun x hx => hall x (List.mem_cons_of_mem b hx))
    simp only [Filter.fill] at this
    rw [this]
    simp [FilterState.putNat, FilterState.append, FilterState.append_many]

/-- An OSC dispatch that is not the captured title form re-emits the
parameters with the matching terminator. -/
theorem osc_dispatch_reemit (st : FilterState) (params : List (List Nat)) (bell : Bool)
    (h : ∀ p1, params ≠ [[0x30], p1]) :
    st.osc_dispatch params bell
      = st.append_many (OSC ++ joinSemi params ++ (if bell then [BEL] else ST)) := by
  match params with
  | [] => rfl
  | [p0] => rfl
  | [p0, p1] =>
    have : p0 ≠ [0x30] := fun hh => h p1 (by rw [hh])
    simp [FilterState.osc_dispatch, this]
  | p0 :: p1 :: p2 :: rest => rfl

/-- Stepping the parser in Ground on a two-byte UTF-8 lead byte starts
scalar accumulation. -/
theorem advance_ground_lead2 (st : FilterState) (b : Nat)
    (hb : 0xc0 ≤ b ∧ b ≤ 0xdf) :
    advance ⟨.ground, st⟩ b = ⟨.utf8Acc (b - 0xc0) 1, st⟩ := by
  have h1 : ¬(b = 0x1b) := by omega
  have h2 : ¬(b < 0x20) := by omega
  have h3 : ¬(b ≤ 0x7e) := by omega
  simp only [advance, if_neg h1, if_neg h2, if_neg h3, if_pos hb]

/-- Stepping the parser in Ground on a three-byte UTF-8 lead byte. -/
theorem advance_ground_lead3 (st : FilterState) (b : Nat)
    (hb : 0xe0 ≤ b ∧ b ≤ 0xef) :
    advance ⟨.ground, st⟩ b = ⟨.utf8Acc (b - 0xe0) 2, st⟩ := by
  have h1 : ¬(b = 0x1b) := by omega
  have h2 : ¬(b < 0x20) := by omega
  have h3 : ¬(b ≤ 0x7e) := by omega
  have h4 : ¬(0xc0 ≤ b ∧ b ≤ 0xdf) := by omega
  simp only [advance, if_neg h1, if_neg h2, if_neg h3, if_neg h4, if_pos hb]

/-- Stepping the parser in Ground on a four-byte UTF-8 lead byte. -/
theorem advance_ground_lead4 (st : FilterState) (b : Nat)
    (hb : 0xf0 ≤ b ∧ b ≤ 0xf7) :
    advance ⟨.ground, st⟩ b = ⟨.utf8Acc (b - 0xf0) 3, st⟩ := by
  have h1 : ¬(b = 0x1b) := by omega
  have h2 : ¬(b < 0x20) := by omega
  have h3 : ¬(b ≤ 0x7e) := by omega
  have h4 : ¬(0xc0 ≤ b ∧ b ≤ 0xdf) := by omega
  have h5 : ¬(0xe0 ≤ b ∧ b ≤ 0xef) := by omega
  simp only [advance, if_neg h1, if_neg h2, if_neg h3, if_neg h4, if_neg h5, if_pos hb]

/-- Stepping on the last continuation byte prints the decoded scalar. -/
theorem advance_utf8_done (st : FilterState) (acc b : Nat)
    (hb : 0x80 ≤ b ∧ b ≤ 0xbf) :
    advance ⟨.utf8Acc acc 1, st⟩ b = ⟨.ground, st.print (acc * 64 + (b - 0x80))⟩ := by
  have hc : isCont b = true := by
    simp only [isCont, Bool.and_eq_true, decide_eq_true_eq]
    omega
  simp only [advance, hc, if_pos rfl, if_true]

/-- Stepping on a non-final continuation byte accumulates six more bits. -/
theorem advance_utf8_more (st : FilterState) (acc need b : Nat)
    (hb : 0x80 ≤ b ∧ b ≤ 0xbf) (hneed : need ≠ 1) :
    advance ⟨.utf8Acc acc need, st⟩ b = ⟨.utf8Acc (acc * 64 + (b - 0x80)) (need - 1), st⟩ := by
  have hc : isCont b = true := by
    simp only [isCont, Bool.and_eq_true, decide_eq_true_eq]
    omega
  simp only [advance, hc, if_neg hneed, if_true]

/-- Feeding the UTF-8 encoding of a printable scalar from Ground prints
exactly that scalar. -/
theorem fill_print (st : FilterState) (c : Nat)
    (hc : (0x20 ≤ c ∧ c ≤ 0x7e) ∨ (0x80 ≤ c ∧ c < 0x110000)) :
    Filter.fill ⟨.ground, st⟩ (utf8Encode c) = ⟨.ground, st.print c⟩ := by
  by_cases ha : c < 0x80
  · have hr : 0x20 ≤ c ∧ c ≤ 0x7e := by omega
    rw [utf8Encode, if_pos ha]
    simp only [Filter.fill, List.foldl_cons, List.foldl_nil]
    rw [advance_ground_print st c hr]
  · by_cases hb : c < 0x800
    · rw [utf8Encode, if_neg ha, if_pos hb]
      simp only [Filter.fill, List.foldl_cons, List.foldl_nil]
      rw [advance_ground_lead2 st (0xc0 + c / 64) (by omega)]
      rw [advance_utf8_done st (0xc0 + c / 64 - 0xc0) (0x80 + c % 64) (by omega)]
      have harg : (0xc0 + c / 64 - 0xc0) * 64 + (0x80 + c % 64 - 0x80) = c := by omega
      rw [harg]
    · by_cases hc3 : c < 0x10000
      · rw [utf8Encode, if_neg ha, if_neg hb, if_pos hc3]
        simp only [Filter.fill, List.foldl_cons, List.foldl_nil]
        rw [advance_ground_lead3 st (0xe0 + c / 4096) (by omega)]
        rw [advance_utf8_more st (0xe0 + c / 4096 - 0xe0) 2 (0x80 + c / 64 % 64)
          (by omega) (by omega)]
        rw [show (2:Nat) - 1 = 1 from rfl]
        rw [advance_utf8_done st ((0xe0 + c / 4096 - 0xe0) * 64 + (0x80 + c / 64 % 64 - 0x80))
          (0x80 + c % 64) (by omega)]
        have harg : ((0xe0 + c / 4096 - 0xe0) * 64 + (0x80 + c / 64 % 64 - 0x80)) * 64
            + (0x80 + c % 64 - 0x80) = c := by omega
        rw [harg]
      · have hhi : 0x80 ≤ c ∧ c < 0x110000 := by
          rcases hc with h | h
          · omega
          · exact h
        rw [utf8Encode, if_neg ha, if_neg hb, if_neg hc3]
        simp only [Filter.fill, List.foldl_cons, List.foldl_nil]
        rw [advance_ground_lead4 st (0xf0 + c / 262144) (by omega)]
        rw [advance_utf8_more st (0xf0 + c / 262144 - 0xf0) 3 (0x80 + c / 4096 % 64)
          (by omega) (by omega)]
        rw [show (3:Nat) - 1 = 2 from rfl]
        rw [advance_utf8_more st ((0xf0 + c / 262144 - 0xf0) * 64 + (0x80 + c / 4096 % 64 - 0x80))
          2 (0x80 + c / 64 % 64) (by omega) (by omega)]
        rw [show (2:Nat) - 1 = 1 from rfl]
        rw [advance_utf8_done st (((0xf0 + c / 262144 - 0xf0) * 64 + (0x80 + c / 4096 % 64 - 0x80))
          * 64 + (0x80 + c / 64 % 64 - 0x80)) (0x80 + c % 64) (by omega)]
        have harg : (((0xf0 + c / 262144 - 0xf0) * 64 + (0x80 + c / 4096 % 64 - 0x80)) * 64
            + (0x80 + c / 64 % 64 - 0x80)) * 64 + (0x80 + c % 64 - 0x80) = c := by omega
        rw [harg]

/-- Feeding intermediate bytes during escape-intermediate collection
collects them in order. -/
theorem fill_escInter (st : FilterState) :
    ∀ (bs i : List Nat), (∀ b ∈ bs, 0x20 ≤ b ∧ b ≤ 0x2f) →
    Filter.fill ⟨.escapeInter i, st⟩ bs = ⟨.escapeInter (i ++ bs), st⟩ := by
  intro bs
  induction bs with
  | nil => intro i _; simp [Filter.fill]
  | cons b bs ih =>
    intro i hall
    simp only [Filter.fill, List.foldl_cons]
    rw [advance_escInter_inter st i b (hall b (List.mem_cons_self b bs))]
    have := ih (i ++ [b]) (fun x hx => hall x (List.mem_cons_of_mem b hx))
    simp only [Filter.fill] at this
    rw [this]
    simp

/-- append_params on singleton subparameter lists is the semicolon join of
the decimal renderings. -/
theorem append_params_singletons (qs : List Nat) :
    append_params (qs.map (fun q => [q])) = joinSemi (qs.map append_u16) := by
  unfold append_params
  rw [List.map_map]
  rfl

/-- Feeding a canonical printable-text token appends exactly its bytes. -/
theorem fill_render_text (st : FilterState) (c : Nat)
    (hcan : (Token.text c).canonical = true) :
    Filter.fill ⟨.ground, st⟩ (Token.text c).render
      = ⟨.ground, { st with buffer := st.buffer ++ (Token.text c).render }⟩ := by
  have hc : (0x20 ≤ c ∧ c ≤ 0x7e) ∨ (0x80 ≤ c ∧ c < 0x110000) := by
    simp only [Token.canonical, Bool.or_eq_true, Bool.and_eq_true,
      decide_eq_true_eq] at hcan
    omega
  rw [show (Token.text c).render = utf8Encode c from rfl, fill_print st c hc]
  rfl

/-- Feeding a C0 control token appends exactly its byte. -/
theorem fill_render_ctl (st : FilterState) (b : Nat)
    (hcan : (Token.ctl b).canonical = true) :
    Filter.fill ⟨.ground, st⟩ (Token.ctl b).render
      = ⟨.ground, { st with buffer := st.buffer ++ (Token.ctl b).render }⟩ := by
  have hb : b < 0x20 ∧ b ≠ 0x1b := by
    simp only [Token.canonical, Bool.and_eq_true, decide_eq_true_eq, bne_iff_ne] at hcan
    exact hcan
  rw [show (Token.ctl b).render = [b] from rfl]
  simp only [Filter.fill, List.foldl_cons, List.foldl_nil]
  rw [advance_ground_exec st b hb]
  rfl

/-- Feeding a canonical plain escape sequence appends exactly its bytes. -/
theorem fill_render_escd (st : FilterState) (inter : List Nat) (final : Nat)
    (hcan : (Token.escd inter final).canonical = true) :
    Filter.fill ⟨.ground, st⟩ (Token.escd inter final).render
      = ⟨.ground, { st with buffer := st.buffer ++ (Token.escd inter final).render }⟩ := by
  simp only [Token.canonical, Bool.and_eq_true, Bool.or_eq_true, decide_eq_true_eq,
    bne_iff_ne, interOk, List.all_eq_true] at hcan
  obtain ⟨⟨⟨hint, hf1⟩, hf2⟩, hexc⟩ := hcan
  rw [show (Token.escd inter final).render = [ESC] ++ (inter ++ [final]) from by
    simp [Token.render]]
  rw [fill_append]
  rw [show Filter.fill ⟨.ground, st⟩ [ESC] = ⟨.escape, st⟩ from rfl]
  cases inter with
  | nil =>
    have hx : final ≠ 0x50 ∧ final ≠ 0x5b ∧ final ≠ 0x5d := by
      rcases hexc with h | h
      · simp at h
      · exact ⟨h.1.1, h.1.2, h.2⟩
    simp only [List.nil_append, Filter.fill, List.foldl_cons, List.foldl_nil]
    rw [advance_escape_final st final ⟨hf1, hf2⟩ hx.1 hx.2.1 hx.2.2]
    simp [FilterState.esc_dispatch, FilterState.append_many, Token.render]
  | cons i0 irest =>
    have hi0 := hint i0 (by simp [List.mem_cons])
    have hi0d : 0x20 ≤ i0 ∧ i0 ≤ 0x2f := by
      constructor <;> simp_all [decide_eq_true_eq]
    rw [show (i0 :: irest) ++ [final] = [i0] ++ (irest ++ [final]) from by simp]
    rw [fill_append]
    rw [show Filter.fill ⟨.escape, st⟩ [i0] = advance ⟨.escape, st⟩ i0 from rfl]
    rw [advance_escape_inter st i0 hi0d]
    rw [fill_append]
    have hirest : ∀ b ∈ irest, 0x20 ≤ b ∧ b ≤ 0x2f := by
      intro b hbmem
      have := hint b (by simp [List.mem_cons, hbmem])
      constructor <;> simp_all [decide_eq_true_eq]
    rw [fill_escInter st irest [i0] hirest]
    simp only [Filter.fill, List.foldl_cons, List.foldl_nil]
    rw [advance_escInter_final st ([i0] ++ irest) final ⟨hf1, hf2⟩]
    simp [FilterState.esc_dispatch, FilterState.append_many, Token.render]

/-- Feeding a canonical CSI sequence appends exactly its bytes. -/
theorem fill_render_csi (st : FilterState) (ps : List Nat) (inter : List Nat) (final : Nat)
    (hcan : (Token.csi ps inter final).canonical = true) :
    Filter.fill ⟨.ground, st⟩ (Token.csi ps inter final).render
      = ⟨.ground, { st with buffer := st.buffer ++ (Token.csi ps inter final).render }⟩ := by
  simp only [Token.canonical, Bool.and_eq_true, decide_eq_true_eq, interOk,
    List.all_eq_true] at hcan
  obtain ⟨⟨⟨hps, hint⟩, hf1⟩, hf2⟩ := hcan
  have hintb : ∀ b ∈ inter, 0x20 ≤ b ∧ b ≤ 0x2f := by
    intro b hbmem
    have := hint b hbmem
    constructor <;> simp_all [decide_eq_true_eq]
  have hpsb : ∀ q ∈ ps, q ≤ 65535 := by
    intro q hq
    have := hps q hq
    simp_all [decide_eq_true_eq]
  rw [show (Token.csi ps inter final).render
      = CSI ++ (append_params (ps.map (fun p => [p])) ++ (inter ++ [final])) from by
    simp [Token.render]]
  rw [fill_append]
  rw [show Filter.fill ⟨.ground, st⟩ CSI = ⟨.seqParam false [] [] 0 false [], st⟩ from rfl]
  cases ps with
  | nil =>
    rw [show append_params (List.map (fun p => [p]) []) = ([] : List Nat) from rfl]
    rw [List.nil_append, fill_append, fill_seq_inter false st [] [] 0 false inter [] hintb]
    simp only [List.nil_append, Filter.fill, List.foldl_cons, List.foldl_nil]
    rw [advance_seq_final false st [] [] 0 false inter final ⟨hf1, hf2⟩]
    simp [FilterState.csi_dispatch, FilterState.append_many, Token.render, finishParams,
      append_params, joinSemi]
  | cons p rest =>
    rw [append_params_singletons (p :: rest)]
    rw [fill_append, fill_params false st rest p [] false hpsb]
    rw [fill_append]
    rw [fill_seq_inter false st ([] ++ (p :: rest).dropLast.map (fun q => [q])) []
      ((p :: rest).getLast (List.cons_ne_nil p rest)) true inter [] hintb]
    simp only [List.nil_append, Filter.fill, List.foldl_cons, List.foldl_nil]
    rw [advance_seq_final false st ((p :: rest).dropLast.map (fun q => [q])) []
      ((p :: rest).getLast (List.cons_ne_nil p rest)) true inter final ⟨hf1, hf2⟩]
    have hfin : finishParams ((p :: rest).dropLast.map (fun q => [q])) []
        ((p :: rest).getLast (List.cons_ne_nil p rest)) true
        = (p :: rest).map (fun q => [q]) := by
      show ((p :: rest).dropLast.map (fun q => [q]))
          ++ [[] ++ [(p :: rest).getLast (List.cons_ne_nil p rest)]]
        = (p :: rest).map (fun q => [q])
      conv_rhs => rw [← List.dropLast_append_getLast (List.cons_ne_nil p rest)]
      rw [List.map_append]
      simp
    rw [if_neg (show ¬(false = true) from by simp), hfin]
    have hap := append_params_singletons (p :: rest)
    simp only [List.map_cons] at hap
    simp [FilterState.csi_dispatch, FilterState.append_many, Token.render, hap]

/-- Feeding the DCS payload and the ESC backslash terminator from
passthrough with no pending title emits the payload and ST and leaves the
DCS. -/
theorem fill_payload_st (s2 : FilterState) (payload : List Nat)
    (hpend : s2.out_window_title_pending = false)
    (hpayb : ∀ b ∈ payload, b ≠ 0x1b) :
    Filter.fill ⟨.dcsPass, s2⟩ (payload ++ ST)
      = ⟨.ground, { s2 with in_dcs := false, buffer := s2.buffer ++ payload ++ ST }⟩ := by
  rw [fill_append, fill_dcs_payload s2 payload hpayb]
  rw [show (ST : List Nat) = [0x1b, 0x5c] from rfl]
  simp only [Filter.fill, List.foldl_cons, List.foldl_nil]
  rw [show advance ⟨.dcsPass, s2.append_many payload⟩ 0x1b
    = ⟨.dcsEsc, s2.append_many payload⟩ from rfl]
  rw [show advance ⟨.dcsEsc, s2.append_many payload⟩ 0x5c
    = ⟨.ground, (s2.append_many payload).unhook⟩ from rfl]
  simp [FilterState.unhook, FilterState.append_many, hpend, ST, ESC]

/-- Feeding a canonical DCS sequence with no pending outbound title appends
exactly its bytes and returns to Ground with in_dcs cleared. -/
theorem fill_render_dcs (st : FilterState) (ps : List Nat) (inter : List Nat)
    (final : Nat) (payload : List Nat)
    (hcan : (Token.dcs ps inter final payload).canonical = true)
    (hp : st.out_window_title_pending = false) (hd : st.in_dcs = false) :
    Filter.fill ⟨.ground, st⟩ (Token.dcs ps inter final payload).render
      = ⟨.ground,
          { st with buffer := st.buffer ++ (Token.dcs ps inter final payload).render }⟩ := by
  simp only [Token.canonical, Bool.and_eq_true, decide_eq_true_eq, interOk,
    List.all_eq_true, bne_iff_ne] at hcan
  obtain ⟨⟨⟨⟨hps, hint⟩, hf1⟩, hf2⟩, hpay⟩ := hcan
  have hintb : ∀ b ∈ inter, 0x20 ≤ b ∧ b ≤ 0x2f := by
    intro b hbmem
    have := hint b hbmem
    constructor <;> simp_all [decide_eq_true_eq]
  have hpsb : ∀ q ∈ ps, q ≤ 65535 := by
    intro q hq
    have := hps q hq
    simp_all [decide_eq_true_eq]
  rw [show (Token.dcs ps inter final payload).render
      = DCS ++ (append_params (ps.map (fun p => [p]))
          ++ (inter ++ ([final] ++ (payload ++ ST)))) from by
    simp [Token.render]]
  rw [fill_append]
  rw [show Filter.fill ⟨.ground, st⟩ DCS = ⟨.seqParam true [] [] 0 false [], st⟩ from rfl]
  cases ps with
  | nil =>
    rw [show append_params (List.map (fun p => [p]) []) = ([] : List Nat) from rfl]
    rw [List.nil_append, fill_append, fill_seq_inter true st [] [] 0 false inter [] hintb]
    rw [fill_append]
    rw [show Filter.fill ⟨.seqParam true [] [] 0 false ([] ++ inter), st⟩ [final]
      = advance ⟨.seqParam true [] [] 0 false ([] ++ inter), st⟩ final from rfl]
    rw [advance_seq_final true st [] [] 0 false ([] ++ inter) final ⟨hf1, hf2⟩]
    rw [if_pos rfl]
    have hpend2 : (st.hook (finishParams [] [] 0 false) ([] ++ inter)
        final).out_window_title_pending = false := by
      simp [FilterState.hook, FilterState.append_many, hp]
    rw [fill_payload_st _ payload hpend2 hpay]
    simp [FilterState.hook, FilterState.append_many, Token.render, finishParams, hd,
      append_params, joinSemi]
  | cons p rest =>
    rw [append_params_singletons (p :: rest)]
    rw [fill_append, fill_params true st rest p [] false hpsb]
    rw [fill_append]
    rw [fill_seq_inter true st ([] ++ (p :: rest).dropLast.map (fun q => [q])) []
      ((p :: rest).getLast (List.cons_ne_nil p rest)) true inter [] hintb]
    rw [fill_append]
    rw [show Filter.fill ⟨.seqParam true ([] ++ (p :: rest).dropLast.map (fun q => [q])) []
        ((p :: rest).getLast (List.cons_ne_nil p rest)) true ([] ++ inter), st⟩ [final]
      = advance ⟨.seqParam true ([] ++ (p :: rest).dropLast.map (fun q => [q])) []
        ((p :: rest).getLast (List.cons_ne_nil p rest)) true ([] ++ inter), st⟩ final
      from rfl]
    rw [advance_seq_final true st ([] ++ (p :: rest).dropLast.map (fun q => [q])) []
      ((p :: rest).getLast (List.cons_ne_nil p rest)) true ([] ++ inter) final ⟨hf1, hf2⟩]
    rw [if_pos rfl]
    have hfin : finishParams ([] ++ (p :: rest).dropLast.map (fun q => [q])) []
        ((p :: rest).getLast (List.cons_ne_nil p rest)) true
        = (p :: rest).map (fun q => [q]) := by
      show ([] ++ (p :: rest).dropLast.map (fun q => [q]))
          ++ [[] ++ [(p :: rest).getLast (List.cons_ne_nil p rest)]]
        = (p :: rest).map (fun q => [q])
      conv_rhs => rw [← List.dropLast_append_getLast (List.cons_ne_nil p rest)]
      rw [List.map_append]
      simp
    rw [hfin]
    have hpend2 : (st.hook ((p :: rest).map (fun q => [q])) ([] ++ inter)
        final).out_window_title_pending = false := by
      simp [FilterState.hook, FilterState.append_many, hp]
    rw [fill_payload_st _ payload hpend2 hpay]
    have hap := append_params_singletons (p :: rest)
    simp only [List.map_cons] at hap
    simp [FilterState.hook, FilterState.append_many, Token.render, hd, hap]

/-- Feeding a canonical non-OSC-0 OSC sequence appends exactly its bytes
with the matching terminator. -/
theorem fill_render_osc (st : FilterState) (params : List (List Nat)) (bell : Bool)
    (hcan : (Token.osc params bell).canonical = true)
    (h0 : (Token.osc params bell).isOsc0 = false) :
    Filter.fill ⟨.ground, st⟩ (Token.osc params bell).render
      = ⟨.ground, { st with buffer := st.buffer ++ (Token.osc params bell).render }⟩ := by
  simp only [Token.canonical, Bool.and_eq_true, decide_eq_true_eq, List.all_eq_true,
    bne_iff_ne, Bool.not_eq_true', List.isEmpty_eq_false] at hcan
  obtain ⟨hne, hbytes⟩ := hcan
  have hbytes2 : ∀ q ∈ params, ∀ b ∈ q, 0x20 ≤ b ∧ b ≠ 0x3b := by
    intro q hq b hbmem
    have := hbytes q hq b hbmem
    constructor <;> simp_all [decide_eq_true_eq]
  have hshape : ∀ p1, params ≠ [[0x30], p1] := by
    intro p1 hcon
    rw [show (Token.osc params bell).isOsc0
        = (Token.osc [[0x30], p1] bell).isOsc0 from by rw [hcon]] at h0
    simp [Token.isOsc0] at h0
  cases params with
  | nil => exact absurd rfl hne
  | cons p ps =>
    rw [show (Token.osc (p :: ps) bell).render
        = OSC ++ (joinSemi (p :: ps) ++ (if bell then [BEL] else ST)) from by
      simp [Token.render]]
    rw [fill_append]
    rw [show Filter.fill ⟨.ground, st⟩ OSC = ⟨.oscString [] [], st⟩ from rfl]
    rw [fill_append, fill_osc_params st ps p [] hbytes2]
    have hcomb : (([] ++ (p :: ps).dropLast)
        ++ [(p :: ps).getLast (List.cons_ne_nil p ps)]) = p :: ps := by
      rw [List.nil_append]
      exact List.dropLast_append_getLast (List.cons_ne_nil p ps)
    cases bell with
    | true =>
      rw [if_pos rfl]
      rw [show Filter.fill ⟨.oscString ([] ++ (p :: ps).dropLast)
          ((p :: ps).getLast (List.cons_ne_nil p ps)), st⟩ [BEL]
        = ⟨.ground, st.osc_dispatch (([] ++ (p :: ps).dropLast)
            ++ [(p :: ps).getLast (List.cons_ne_nil p ps)]) true⟩ from rfl]
      rw [hcomb, osc_dispatch_reemit st (p :: ps) true hshape]
      simp [FilterState.append_many, Token.render]
    | false =>
      rw [if_neg (show ¬(false = true) from by simp)]
      rw [show (ST : List Nat) = [0x1b, 0x5c] from rfl]
      simp only [Filter.fill, List.foldl_cons, List.foldl_nil]
      rw [show advance ⟨.oscString ([] ++ (p :: ps).dropLast)
          ((p :: ps).getLast (List.cons_ne_nil p ps)), st⟩ 0x1b
        = ⟨.oscEsc ([] ++ (p :: ps).dropLast)
            ((p :: ps).getLast (List.cons_ne_nil p ps)), st⟩ from rfl]
      rw [show advance ⟨.oscEsc ([] ++ (p :: ps).dropLast)
          ((p :: ps).getLast (List.cons_ne_nil p ps)), st⟩ 0x5c
        = ⟨.ground, st.osc_dispatch (([] ++ (p :: ps).dropLast)
            ++ [(p :: ps).getLast (List.cons_ne_nil p ps)]) false⟩ from rfl]
      rw [hcomb, osc_dispatch_reemit st (p :: ps) false hshape]
      simp [FilterState.append_many, Token.render, ST, ESC]

/-- Feeding any canonical non-OSC-0 token from Ground with no deferred
title appends exactly its wire bytes and returns to Ground. -/
theorem fill_render (t : Token) (st : FilterState)
    (hcan : t.canonical = true) (h0 : t.isOsc0 = false)
    (hp : st.out_window_title_pending = false) (hd : st.in_dcs = false) :
    Filter.fill ⟨.ground, st⟩ t.render
      = ⟨.ground, { st with buffer := st.buffer ++ t.render }⟩ := by
  cases t with
  | text c => exact fill_render_text st c hcan
  | ctl b => exact fill_render_ctl st b hcan
  | escd i f => exact fill_render_escd st i f hcan
  | csi ps i f => exact fill_render_csi st ps i f hcan
  | osc params bell => exact fill_render_osc st params bell hcan h0
  | dcs ps i f pay => exact fill_render_dcs st ps i f pay hcan hp hd

/-- Feeding a whole canonical non-OSC-0 token sequence appends exactly its
wire bytes. -/
theorem fill_tokens (ts : List Token) :
    ∀ (st : FilterState), (∀ t ∈ ts, t.canonical = true ∧ t.isOsc0 = false) →
    st.out_window_title_pending = false → st.in_dcs = false →
    Filter.fill ⟨.ground, st⟩ (tokensRender ts)
      = ⟨.ground, { st with buffer := st.buffer ++ tokensRender ts }⟩ := by
  induction ts with
  | nil =>
    intro st _ _ _
    simp [tokensRender, Filter.fill]
  | cons t ts ih =>
    intro st hall hp hd
    rw [show tokensRender (t :: ts) = t.render ++ tokensRender ts from by
      simp [tokensRender]]
    have ht := hall t (List.mem_cons_self t ts)
    rw [fill_append, fill_render t st ht.1 ht.2 hp hd]
    rw [ih { st with buffer := st.buffer ++ t.render }
      (fun x hx => hall x (List.mem_cons_of_mem t hx)) hp hd]
    simp

/-- C1 (amended): for every input that is a concatenation of tokens in
canonical emitted form, none an OSC-0 dispatch, the filter output equals
the input byte-for-byte — each dispatch re-emitted as the canonical prefix,
then parameters as semicolon-separated minimal decimals, then intermediates
verbatim, then the final byte — and the inbound title stays untouched. -/
theorem filter_roundtrip_canonical (ts : List Token)
    (h : ∀ t ∈ ts, t.canonical = true ∧ t.isOsc0 = false) :
    (Filter.fill Filter.new (tokensRender ts)).buffer = tokensRender ts ∧
    (Filter.fill Filter.new (tokensRender ts)).in_window_title = ttymonNats := by
  have hfill := fill_tokens ts FilterState.new h rfl rfl
  rw [show Filter.new = (⟨.ground, FilterState.new⟩ : Filter) from rfl, hfill]
  constructor
  · simp [Filter.buffer, FilterState.new]
  · rfl

/-- Witness for the amended C1 at a concrete canonical token sequence. -/
theorem filter_roundtrip_canonical_witness :
    (∀ t ∈ demoTokens, t.canonical = true ∧ t.isOsc0 = false) ∧
    (Filter.fill Filter.new (tokensRender demoTokens)).buffer = tokensRender demoTokens :=
  ⟨by decide, (filter_roundtrip_canonical demoTokens (by decide)).1⟩

/-- The decimal rendering of five is the single digit 5. -/
theorem append_u16_five : append_u16 5 = [0x35] := by
  rw [append_u16]
  rw [show findDivisor (5 / 10) 1 = 1 from by rw [findDivisor]; norm_num]
  rw [digitsLoop, if_neg (show ¬(1 = 0) by omega)]
  rw [show (1 : Nat) / 10 = 0 from rfl, digitsLoop, if_pos rfl]

/-- C1 counterexample: the input ESC [ 0 5 m contains no OSC dispatch at
all, yet the filter re-emits it with the leading zero dropped, so the
output differs from the input byte-for-byte. -/
theorem filter_roundtrip_counterexample :
    (Filter.fill Filter.new [0x1b, 0x5b, 0x30, 0x35, 0x6d]).buffer
      ≠ [0x1b, 0x5b, 0x30, 0x35, 0x6d] ∧
    (Filter.fill Filter.new [0x1b, 0x5b, 0x30, 0x35, 0x6d]).buffer
      = [0x1b, 0x5b, 0x35, 0x6d] := by
  have hfill : Filter.fill Filter.new [0x1b, 0x5b, 0x30, 0x35, 0x6d]
      = ⟨.ground, FilterState.new.csi_dispatch [[5]] [] 0x6d⟩ := rfl
  have hbuf : (Filter.fill Filter.new [0x1b, 0x5b, 0x30, 0x35, 0x6d]).buffer
      = [0x1b, 0x5b, 0x35, 0x6d] := by
    rw [hfill]
    show (FilterState.new.append_many
      (CSI ++ append_params [[5]] ++ [] ++ [0x6d])).buffer = _
    rw [show append_params [[5]] = append_u16 5 from rfl, append_u16_five]
    rfl
  exact ⟨by rw [hbuf]; decide, hbuf⟩

end Filter

namespace Pty

/-- A check due exactly at the stamped time plus interval fires into the
capped multiple. -/
theorem mc_fire (i last : Nat) :
    (maybe_check ⟨i, some last⟩ (last + i)).1 = ⟨min 60000 (i * 5), some (last + i)⟩ := by
  simp [maybe_check, MAX_CHECK_INTERVAL, CHECK_INTERVAL_MULTIPLIER]

/-- One idle step: the check fires exactly at the stamped time plus the
interval, and the interval becomes its capped multiple. -/
theorem idle_step (i last : Nat) (n : Nat) :
    idleCheckTimes (n + 1) ⟨i, some last⟩
      = (last + i) :: idleCheckTimes n ⟨min 60000 (i * 5), some (last + i)⟩ := by
  rw [show idleCheckTimes (n + 1) ⟨i, some last⟩
    = (last + i) :: idleCheckTimes n (maybe_check ⟨i, some last⟩ (last + i)).1 from rfl]
  rw [mc_fire]

/-- Idle step at the 100 ms interval. -/
theorem idleStep1 (T : Nat) : idleCheckTimes 6 ⟨100, some T⟩
    = (T + 100) :: idleCheckTimes 5 ⟨500, some (T + 100)⟩ := by
  rw [idle_step]
  norm_num [Nat.min_def]

/-- Idle step at the 500 ms interval. -/
theorem idleStep2 (T : Nat) : idleCheckTimes 5 ⟨500, some T⟩
    = (T + 500) :: idleCheckTimes 4 ⟨2500, some (T + 500)⟩ := by
  rw [idle_step]
  norm_num [Nat.min_def]

/-- Idle step at the 2.5 s interval. -/
theorem idleStep3 (T : Nat) : idleCheckTimes 4 ⟨2500, some T⟩
    = (T + 2500) :: idleCheckTimes 3 ⟨12500, some (T + 2500)⟩ := by
  rw [idle_step]
  norm_num [Nat.min_def]

/-- Idle step at the 12.5 s interval, reaching the cap. -/
theorem idleStep4 (T : Nat) : idleCheckTimes 3 ⟨12500, some T⟩
    = (T + 12500) :: idleCheckTimes 2 ⟨60000, some (T + 12500)⟩ := by
  rw [idle_step]
  norm_num [Nat.min_def]

/-- Idle step at the 60 s cap. -/
theorem idleStep5 (T : Nat) : idleCheckTimes 2 ⟨60000, some T⟩
    = (T + 60000) :: idleCheckTimes 1 ⟨60000, some (T + 60000)⟩ := by
  rw [idle_step]
  norm_num [Nat.min_def]

/-- Last idle step at the 60 s cap. -/
theorem idleStep6 (T : Nat) : idleCheckTimes 1 ⟨60000, some T⟩
    = (T + 60000) :: idleCheckTimes 0 ⟨60000, some (T + 60000)⟩ := by
  rw [idle_step]
  norm_num [Nat.min_def]

/-- An exhausted idle listing is empty. -/
theorem idleTail (T : Nat) :
    idleCheckTimes 0 ⟨60000, some (T + 100 + 500 + 2500 + 12500 + 60000 + 60000)⟩
      = [] := rfl

/-- The six idle check times with their gaps left as sums. -/
theorem idle_times_sums (T : Nat) :
    idleCheckTimes 6 ⟨100, some T⟩
      = [T + 100, T + 100 + 500, T + 100 + 500 + 2500, T + 100 + 500 + 2500 + 12500,
          T + 100 + 500 + 2500 + 12500 + 60000,
          T + 100 + 500 + 2500 + 12500 + 60000 + 60000] := by
  rw [idleStep1, idleStep2, idleStep3, idleStep4, idleStep5, idleStep6, idleTail]

/-- Entrywise congruence for six-element lists of naturals. -/
theorem cons6_congr {a b c d e f a2 b2 c2 d2 e2 f2 : Nat}
    (h1 : a = a2) (h2 : b = b2) (h3 : c = c2) (h4 : d = d2) (h5 : e = e2)
    (h6 : f = f2) :
    ([a, b, c, d, e, f] : List Nat) = [a2, b2, c2, d2, e2, f2] := by
  rw [h1, h2, h3, h4, h5, h6]

/-- The six idle check times from a freshly reset 100 ms timer. -/
theorem idle_times (T : Nat) :
    idleCheckTimes 6 { check_interval := MIN_CHECK_INTERVAL, last_check_time := some T }
      = [T + 100, T + 600, T + 3100, T + 15600, T + 75600, T + 135600] := by
  calc idleCheckTimes 6 { check_interval := MIN_CHECK_INTERVAL, last_check_time := some T }
      = idleCheckTimes 6 ⟨100, some T⟩ := rfl
    _ = [T + 100, T + 100 + 500, T + 100 + 500 + 2500, T + 100 + 500 + 2500 + 12500,
          T + 100 + 500 + 2500 + 12500 + 60000,
          T + 100 + 500 + 2500 + 12500 + 60000 + 60000] := idle_times_sums T
    _ = [T + 100, T + 600, T + 3100, T + 15600, T + 75600, T + 135600] :=
        cons6_congr rfl (by omega) (by omega) (by omega) (by omega) (by omega)

/-- C5: a fired check multiplies the interval by 5 capped at 60 s and
stamps the time; under continuous idleness from a freshly reset 100 ms
timer the checks fire with gaps of exactly 0.1, 0.5, 2.5, 12.5, 60, 60
seconds; and a PTY-master read of at least one byte resets the interval to
the 100 ms minimum. -/
theorem check_timer_spec :
    (∀ (s s2 : PtyTimer) (now w : Nat), maybe_check s now = (s2, w, true) →
      s2.check_interval
          = min MAX_CHECK_INTERVAL (s.check_interval * CHECK_INTERVAL_MULTIPLIER) ∧
        s2.last_check_time = some now) ∧
    (∀ T : Nat, idleCheckTimes 6
        { check_interval := MIN_CHECK_INTERVAL, last_check_time := some T }
      = [T + 100, T + 600, T + 3100, T + 15600, T + 75600, T + 135600]) ∧
    (∀ T : Nat, List.zipWith (fun a b => a - b)
        (idleCheckTimes 6 { check_interval := MIN_CHECK_INTERVAL, last_check_time := some T })
        (T :: idleCheckTimes 6
          { check_interval := MIN_CHECK_INTERVAL, last_check_time := some T })
      = [100, 500, 2500, 12500, 60000, 60000]) ∧
    (∀ (s : PtyTimer) (n : Nat), 1 ≤ n →
      ((handle_master_read s n).1).check_interval = MIN_CHECK_INTERVAL) := by
  refine ⟨?_, idle_times, ?_, ?_⟩
  · intro s s2 now w h
    simp only [maybe_check] at h
    split at h
    · simp only [Prod.mk.injEq] at h
      rw [← h.1]
      exact ⟨rfl, rfl⟩
    · simp at h
  · intro T
    rw [idle_times T]
    show [(T + 100) - T, (T + 600) - (T + 100), (T + 3100) - (T + 600),
        (T + 15600) - (T + 3100), (T + 75600) - (T + 15600),
        (T + 135600) - (T + 75600)]
      = [100, 500, 2500, 12500, 60000, 60000]
    exact cons6_congr (by omega) (by omega) (by omega) (by omega) (by omega)
      (by omega)
  · intro s n hn
    unfold handle_master_read
    rw [if_neg (by omega)]

/-- Witness for check_timer_spec at concrete values. -/
theorem check_timer_spec_witness :
    ((PtyTimer.mk 100 (some 0)).check_interval = 100 →
      (maybe_check (PtyTimer.mk 100 (some 0)) 100).1.check_interval
        = min MAX_CHECK_INTERVAL (100 * CHECK_INTERVAL_MULTIPLIER)) ∧
    idleCheckTimes 6 { check_interval := MIN_CHECK_INTERVAL, last_check_time := some 0 }
      = [100, 600, 3100, 15600, 75600, 135600] ∧
    (handle_master_read (PtyTimer.mk 60000 (some 0)) 4).1.check_interval
      = MIN_CHECK_INTERVAL := by
  refine ⟨?_, by simpa using check_timer_spec.2.1 0,
    check_timer_spec.2.2.2 (PtyTimer.mk 60000 (some 0)) 4 (by decide)⟩
  intro _
  exact (check_timer_spec.1 (PtyTimer.mk 100 (some 0))
    (PtyTimer.mk 500 (some 100)) 100 500 (by decide)).1

end Pty

namespace Track

/-- C6: a procfs, netlink or container-inspector failure only leaves the
affected chain node without a child for the cycle — a failed tty_pgrp read
drops the session's child, a failed argv0 read or peer lookup drops the
group's child — and an update that finds no leaf group (a root whose
tty_pgrp read fails) clears all three derived outputs. -/
theorem update_failure_locality (env : TrackEnv) :
    (∀ (pid : Int) (child : Option GroupNode), env.tty_pgrp pid = none →
      sessionUpdateChild env pid child = none) ∧
    (∀ (pgrp : Int) (child : Option SessionNode),
      (env.argv0 pgrp = none ∨
        (env.argv0 pgrp = some toolboxPath ∧ env.podman_peer pgrp = none)) →
      groupUpdateChild env pgrp child = none) ∧
    (∀ (fuel : Nat) (root : SessionNode), root.container_info = none →
      env.tty_pgrp root.pid = none →
      (terminalUpdate fuel env root).2 = ⟨none, "", ""⟩) := by
  refine ⟨?_, ?_, ?_⟩
  · intro pid child h
    unfold sessionUpdateChild
    rw [h]
  · intro pgrp child h
    unfold groupUpdateChild
    rcases h with h | ⟨h1, h2⟩
    · rw [h]
      simp
    · rw [h1]
      simp [h2]
  · intro fuel root hci h
    have hup : sessionUpdateChild env root.pid root.child = none := by
      unfold sessionUpdateChild
      rw [h]
    unfold terminalUpdate
    rw [walkSession, hup, hci]

/-- Witness for update_failure_locality on the all-failing environment. -/
theorem update_failure_locality_witness :
    sessionUpdateChild (TrackEnv.mk (fun _ => none) (fun _ => none) (fun _ => none)
        (fun _ => none)) 7 none = none ∧
    (terminalUpdate 1 (TrackEnv.mk (fun _ => none) (fun _ => none) (fun _ => none)
        (fun _ => none)) (.mk 7 none none)).2 = ⟨none, "", ""⟩ := by
  have h := update_failure_locality (TrackEnv.mk (fun _ => none) (fun _ => none)
    (fun _ => none) (fun _ => none))
  exact ⟨h.1 7 none rfl, h.2.2 1 (.mk 7 none none) rfl rfl⟩

/-- A successful tty_pgrp read always yields a child group carrying it. -/
theorem sessionUpdateChild_some (env : TrackEnv) (pid g : Int)
    (child : Option GroupNode) (h : env.tty_pgrp pid = some g) :
    ∃ c, sessionUpdateChild env pid child = some c ∧ c.pgrp = g := by
  match child with
  | none =>
    refine ⟨.mk g none, ?_, rfl⟩
    unfold sessionUpdateChild
    rw [h]
  | some c0 =>
    have hred : sessionUpdateChild env pid (some c0)
        = (if g ≠ c0.pgrp then some (GroupNode.mk g none) else some c0) := by
      unfold sessionUpdateChild
      rw [h]
    by_cases hne : g ≠ c0.pgrp
    · exact ⟨.mk g none, by rw [hred, if_pos hne], rfl⟩
    · push_neg at hne
      exact ⟨c0, by rw [hred, if_neg (by simpa using hne)], hne.symm⟩

/-- One-step unfolding of the walk when the session update succeeds. -/
theorem walkSession_some (fuel : Nat) (env : TrackEnv) (s : SessionNode)
    (ci : Option ContainerInfo) (g : GroupNode)
    (hup : sessionUpdateChild env s.pid s.child = some g) :
    walkSession fuel env s ci
      = (match groupUpdateChild env g.pgrp g.child with
         | none => ⟨.mk s.pid s.container_info (some (.mk g.pgrp none)), some g.pgrp,
             match s.container_info with | some c => some c | none => ci⟩
         | some s2 =>
           match fuel with
           | 0 => ⟨.mk s.pid s.container_info (some (.mk g.pgrp (some s2))),
               some g.pgrp,
               match s.container_info with | some c => some c | none => ci⟩
           | n + 1 =>
             let w := walkSession n env s2
               (match s.container_info with | some c => some c | none => ci)
             ⟨.mk s.pid s.container_info (some (.mk g.pgrp (some w.tree))),
               some (w.leaf_pgrp.getD g.pgrp), w.deepest_ci⟩) := by
  rw [walkSession, hup]

/-- The walk keeps the root pid and records a child group with the pgrp
delivered by the session update. -/
theorem walk_child_shape (fuel : Nat) (env : TrackEnv) (s : SessionNode)
    (ci : Option ContainerInfo) (gnode : GroupNode)
    (hup : sessionUpdateChild env s.pid s.child = some gnode) :
    (walkSession fuel env s ci).tree.pid = s.pid ∧
    ∃ gc, (walkSession fuel env s ci).tree.child = some gc ∧ gc.pgrp = gnode.pgrp := by
  rw [walkSession_some fuel env s ci gnode hup]
  cases hgrp : groupUpdateChild env gnode.pgrp gnode.child with
  | none =>
    exact ⟨rfl, .mk gnode.pgrp none, rfl, rfl⟩
  | some s2 =>
    cases fuel with
    | zero => exact ⟨rfl, .mk gnode.pgrp (some s2), rfl, rfl⟩
    | succ n =>
      exact ⟨rfl, .mk gnode.pgrp (some (walkSession n env s2
        (match s.container_info with | some c => some c | none => ci)).tree), rfl, rfl⟩

/-- A walk in which the session update yields a group whose own update
fails produces exactly a fresh one-level chain and that group as leaf. -/
theorem walk_leaf_shape (fuel : Nat) (env : TrackEnv) (s : SessionNode)
    (ci : Option ContainerInfo) (gnode : GroupNode)
    (hup : sessionUpdateChild env s.pid s.child = some gnode)
    (hgrp : groupUpdateChild env gnode.pgrp gnode.child = none) :
    walkSession fuel env s ci
      = ⟨.mk s.pid s.container_info (some (.mk gnode.pgrp none)), some gnode.pgrp,
          match s.container_info with | some c => some c | none => ci⟩ := by
  rw [walkSession_some fuel env s ci gnode hup, hgrp]

/-- The tree returned by TerminalState::update is the walked tree. -/
theorem terminalUpdate_tree (fuel : Nat) (env : TrackEnv) (root : SessionNode) :
    (terminalUpdate fuel env root).1 = (walkSession fuel env root none).tree := by
  cases h : (walkSession fuel env root none).leaf_pgrp <;>
    simp [terminalUpdate, h]

/-- C7: when the tty_pgrp read on an update differs from the cached child
group's pgrp (or no child is cached), the child becomes a freshly
constructed group carrying the new pgrp and no child of its own, whatever
the old node held; hence after two whole-chain updates whose root tty_pgrp
reads differ, the new leaf group carries the new pgrp by replacement. -/
theorem replacement_not_mutation :
    (∀ (env : TrackEnv) (pid g : Int) (child : Option GroupNode),
      env.tty_pgrp pid = some g →
      (∀ c0, child = some c0 → c0.pgrp ≠ g) →
      sessionUpdateChild env pid child = some (GroupNode.mk g none)) ∧
    (∀ (fuel : Nat) (env1 env2 : TrackEnv) (root : SessionNode) (g1 g2 : Int),
      env1.tty_pgrp root.pid = some g1 →
      env2.tty_pgrp root.pid = some g2 →
      g1 ≠ g2 →
      env2.argv0 g2 = none →
      (terminalUpdate fuel env2 (terminalUpdate fuel env1 root).1).1.child
          = some (GroupNode.mk g2 none) ∧
        (walkSession fuel env2 (terminalUpdate fuel env1 root).1 none).leaf_pgrp
          = some g2) := by
  constructor
  · intro env pid g child h hne
    match child with
    | none =>
      unfold sessionUpdateChild
      rw [h]
    | some c0 =>
      have hne0 : g ≠ c0.pgrp := Ne.symm (hne c0 rfl)
      have hred : sessionUpdateChild env pid (some c0)
          = (if g ≠ c0.pgrp then some (GroupNode.mk g none) else some c0) := by
        unfold sessionUpdateChild
        rw [h]
      rw [hred, if_pos hne0]
  · intro fuel env1 env2 root g1 g2 h1 h2 hne ha2
    obtain ⟨gnode, hup1, hpg1⟩ := sessionUpdateChild_some env1 root.pid g1 root.child h1
    obtain ⟨hpid, gc, hchild, hgpg⟩ := walk_child_shape fuel env1 root none gnode hup1
    have htree := terminalUpdate_tree fuel env1 root
    have hrpid : (terminalUpdate fuel env1 root).1.pid = root.pid := by
      rw [htree]; exact hpid
    have hrchild : (terminalUpdate fuel env1 root).1.child = some gc := by
      rw [htree]; exact hchild
    have h2x : env2.tty_pgrp (terminalUpdate fuel env1 root).1.pid = some g2 := by
      rw [hrpid]; exact h2
    have hup2 : sessionUpdateChild env2 (terminalUpdate fuel env1 root).1.pid
        (terminalUpdate fuel env1 root).1.child = some (GroupNode.mk g2 none) := by
      rw [hrchild]
      have hred : sessionUpdateChild env2 (terminalUpdate fuel env1 root).1.pid
          (some gc)
          = (if g2 ≠ gc.pgrp then some (GroupNode.mk g2 none) else some gc) := by
        unfold sessionUpdateChild
        rw [h2x]
      have hgne : g2 ≠ gc.pgrp := by
        rw [hgpg, hpg1]
        exact Ne.symm hne
      rw [hred, if_pos hgne]
    have hg : groupUpdateChild env2 (GroupNode.mk g2 none).pgrp
        (GroupNode.mk g2 none).child = none := by
      show groupUpdateChild env2 g2 none = none
      unfold groupUpdateChild
      rw [ha2]
      simp
    have hwalk := walk_leaf_shape fuel env2 (terminalUpdate fuel env1 root).1 none
      (GroupNode.mk g2 none) hup2 hg
    constructor
    · rw [terminalUpdate_tree, hwalk]
      rfl
    · rw [hwalk]
      rfl

/-- Witness for replacement_not_mutation: a root whose tty_pgrp reads 3 on
the first update and 5 on the second ends with the fresh leaf group 5. -/
theorem replacement_not_mutation_witness :
    sessionUpdateChild
        (TrackEnv.mk (fun _ => some 5) (fun _ => none) (fun _ => none)
          (fun _ => none)) 7 (some (GroupNode.mk 3 none))
      = some (GroupNode.mk 5 none) ∧
    (terminalUpdate 1
        (TrackEnv.mk (fun _ => some 5) (fun _ => none) (fun _ => none)
          (fun _ => none))
        (terminalUpdate 1
          (TrackEnv.mk (fun _ => some 3) (fun _ => none) (fun _ => none)
            (fun _ => none))
          (SessionNode.mk 7 none none)).1).1.child
      = some (GroupNode.mk 5 none) := by
  refine ⟨?_, ?_⟩
  · exact replacement_not_mutation.1
      (TrackEnv.mk (fun _ => some 5) (fun _ => none) (fun _ => none)
        (fun _ => none)) 7 5 (some (GroupNode.mk 3 none)) rfl
      (fun c0 hc0 => by
        cases hc0
        decide)
  · exact (replacement_not_mutation.2 1
      (TrackEnv.mk (fun _ => some 3) (fun _ => none) (fun _ => none)
        (fun _ => none))
      (TrackEnv.mk (fun _ => some 5) (fun _ => none) (fun _ => none)
        (fun _ => none))
      (SessionNode.mk 7 none none) 3 5 rfl rfl (by decide) rfl).1

end Track

namespace Proc

/-- The ascending scan yields nothing only when no index matches. -/
theorem findFirst_none (p : Nat → Bool) (n : Nat) (h : findFirst p n = none) :
    ∀ j, j < n → p j = false := by
  induction n with
  | zero =>
    intro j hj
    exact absurd hj (Nat.not_lt_zero j)
  | succ n ih =>
    intro j hj
    cases hf : findFirst p n with
    | some k => simp [findFirst, hf] at h
    | none =>
      simp only [findFirst, hf] at h
      by_cases hp : p n = true
      · simp [if_pos hp] at h
      · have hpn : p n = false := by simpa using hp
        rcases Nat.lt_succ_iff_lt_or_eq.mp hj with h1 | rfl
        · exact ih hf j h1
        · exact hpn

/-- The ascending scan returns the first matching index. -/
theorem findFirst_some (p : Nat → Bool) (n i : Nat) (h : findFirst p n = some i) :
    i < n ∧ p i = true ∧ ∀ j, j < i → p j = false := by
  induction n with
  | zero => simp [findFirst] at h
  | succ n ih =>
    cases hf : findFirst p n with
    | some k =>
      simp only [findFirst, hf, Option.some.injEq] at h
      subst h
      obtain ⟨h1, h2, h3⟩ := ih hf
      exact ⟨Nat.lt_succ_of_lt h1, h2, h3⟩
    | none =>
      simp only [findFirst, hf] at h
      by_cases hp : p n = true
      · rw [if_pos hp, Option.some.injEq] at h
        subst h
        exact ⟨Nat.lt_succ_self _, hp, findFirst_none p _ hf⟩
      · rw [if_neg hp] at h
        simp at h

/-- The descending scan yields nothing only when no index matches. -/
theorem findLast_none (p : Nat → Bool) (n : Nat) (h : findLast p n = none) :
    ∀ j, j < n → p j = false := by
  induction n with
  | zero =>
    intro j hj
    exact absurd hj (Nat.not_lt_zero j)
  | succ n ih =>
    intro j hj
    simp only [findLast] at h
    by_cases hp : p n = true
    · simp [if_pos hp] at h
    · rw [if_neg hp] at h
      have hpn : p n = false := by simpa using hp
      rcases Nat.lt_succ_iff_lt_or_eq.mp hj with h1 | rfl
      · exact ih h j h1
      · exact hpn

/-- The descending scan returns the last matching index. -/
theorem findLast_some (p : Nat → Bool) (n i : Nat) (h : findLast p n = some i) :
    i < n ∧ p i = true ∧ ∀ j, i < j → j < n → p j = false := by
  induction n with
  | zero => simp [findLast] at h
  | succ n ih =>
    simp only [findLast] at h
    by_cases hp : p n = true
    · rw [if_pos hp, Option.some.injEq] at h
      subst h
      refine ⟨Nat.lt_succ_self _, hp, ?_⟩
      intro j h1 h2
      exact absurd h1 (by omega)
    · rw [if_neg hp] at h
      have hpn : p n = false := by simpa using hp
      obtain ⟨h1, h2, h3⟩ := ih h
      refine ⟨Nat.lt_succ_of_lt h1, h2, ?_⟩
      intro j hij hjn
      rcases Nat.lt_succ_iff_lt_or_eq.mp hjn with hj1 | rfl
      · exact h3 j hij hj1
      · exact hpn

/-- C8: the stat parser takes the first space-open-paren from the left and
the last close-paren-space from the right, yields the bytes before the
delimiter, the bytes between the parentheses, and the remainder split on
single spaces, reads ppid, pgrp and tty_pgrp at field indices 3, 4 and 7,
and returns an error on an absent delimiter or a missing or non-numeric
field; but on empty content, and when the found close delimiter precedes
the open one, it crashes (length underflow, reversed slice bounds) instead
of returning the promised error. -/
theorem stat_parse_behaviour :
    (∀ (bs : List Nat) (i : Nat), openParenIdx bs = some i →
      1 ≤ i ∧ i < bs.length ∧ bs.getD (i - 1) 0 = 0x20 ∧ bs.getD i 0 = 0x28 ∧
      ∀ j, j < i → ¬(1 ≤ j ∧ bs.getD (j - 1) 0 = 0x20 ∧ bs.getD j 0 = 0x28)) ∧
    (∀ (bs : List Nat) (i : Nat), closeParenIdx bs = some i →
      i < bs.length - 1 ∧ bs.getD i 0 = 0x29 ∧ bs.getD (i + 1) 0 = 0x20 ∧
      ∀ j, i < j → j < bs.length - 1 →
        ¬(bs.getD j 0 = 0x29 ∧ bs.getD (j + 1) 0 = 0x20)) ∧
    statParse demoStat
      = .fields [[0x31, 0x32, 0x33, 0x34], [0x61, 0x20, 0x62], [0x53],
          [0x33, 0x35], [0x34, 0x30], [0x35, 0x30], [0x36, 0x30], [0x37, 0x30],
          [0x38, 0x30]] ∧
    get_stat_field demoStat 3 = .ok 35 ∧
    get_stat_field demoStat 4 = .ok 40 ∧
    get_stat_field demoStat 7 = .ok 70 ∧
    get_stat_field demoStat 2 = .failure ∧
    get_stat_field demoStat 9 = .failure ∧
    statParse [0x31, 0x32] = .failure ∧
    statParse [] = .crash ∧
    statParse [0x29, 0x20, 0x28, 0x20, 0x78] = .crash := by
  refine ⟨?_, ?_, by decide, by decide, by decide, by decide, by decide,
    by decide, by decide, by decide, by decide⟩
  · intro bs i h
    obtain ⟨hlt, hp, hmin⟩ := findFirst_some _ _ _ h
    simp only [Bool.and_eq_true, decide_eq_true_eq, beq_iff_eq] at hp
    refine ⟨hp.1.1, hlt, hp.1.2, hp.2, ?_⟩
    intro j hj hcon
    have hfalse := hmin j hj
    have htrue : (decide (1 ≤ j) && (bs.getD (j - 1) 0 == 0x20)
        && (bs.getD j 0 == 0x28)) = true := by
      simp only [Bool.and_eq_true, decide_eq_true_eq, beq_iff_eq]
      exact ⟨⟨hcon.1, hcon.2.1⟩, hcon.2.2⟩
    rw [hfalse] at htrue
    simp at htrue
  · intro bs i h
    obtain ⟨hlt, hp, hmax⟩ := findLast_some _ _ _ h
    simp only [Bool.and_eq_true, beq_iff_eq] at hp
    refine ⟨hlt, hp.1, hp.2, ?_⟩
    intro j hij hjn hcon
    have hfalse := hmax j hij hjn
    have htrue : ((bs.getD j 0 == 0x29) && (bs.getD (j + 1) 0 == 0x20)) = true := by
      simp only [Bool.and_eq_true, beq_iff_eq]
      exact ⟨hcon.1, hcon.2⟩
    rw [hfalse] at htrue
    simp at htrue

/-- Witness for stat_parse_behaviour: the delimiters of the representative
content sit at indices 5 and 9. -/
theorem stat_parse_behaviour_witness :
    1 ≤ 5 ∧ 5 < demoStat.length ∧ demoStat.getD (5 - 1) 0 = 0x20 ∧
      demoStat.getD 5 0 = 0x28 ∧ demoStat.getD 9 0 = 0x29 ∧
      demoStat.getD (9 + 1) 0 = 0x20 := by
  have h1 := stat_parse_behaviour.1 demoStat 5 (by decide)
  have h2 := stat_parse_behaviour.2.1 demoStat 9 (by decide)
  exact ⟨h1.1, h1.2.1, h1.2.2.1, h1.2.2.2.1, h2.2.1, h2.2.2.1⟩

/-- C10: Process::argv0 never hits its unwrap: splitting any cmdline
content on NUL yields at least one field, so argv0 always produces a value
— the first field when it is valid UTF-8, the literal ??? when it is not,
and the empty string on empty cmdline content. -/
theorem argv0_total :
    (∀ cmdline : List Nat, splitByte 0 cmdline ≠ []) ∧
    (∀ cmdline : List Nat, ∃ out, argv0OfCmdline cmdline = some out) ∧
    argv0OfCmdline [] = some [] ∧
    (∀ (cmdline first : List Nat) (rest : List (List Nat)),
      splitByte 0 cmdline = first :: rest → utf8Valid first = true →
      argv0OfCmdline cmdline = some first) ∧
    (∀ (cmdline first : List Nat) (rest : List (List Nat)),
      splitByte 0 cmdline = first :: rest → utf8Valid first = false →
      argv0OfCmdline cmdline = some qqq) := by
  have hne : ∀ (sep : Nat) (bs : List Nat), splitByte sep bs ≠ [] := by
    intro sep bs
    induction bs with
    | nil => simp [splitByte]
    | cons b rest ih =>
      by_cases h : b = sep
      · simp [splitByte, h]
      · simp only [splitByte, if_neg h]
        cases hs : splitByte sep rest with
        | nil => simp
        | cons hd tl => simp
  refine ⟨fun c => hne 0 c, ?_, by decide, ?_, ?_⟩
  · intro cmdline
    unfold argv0OfCmdline
    cases hs : splitByte 0 cmdline with
    | nil => exact absurd hs (hne 0 cmdline)
    | cons f r => exact ⟨_, rfl⟩
  · intro cmdline first rest hs hv
    simp [argv0OfCmdline, hs, hv]
  · intro cmdline first rest hs hv
    simp [argv0OfCmdline, hs, hv]

/-- Witness for argv0_total: a two-argument cmdline yields its first
argument, a lone invalid byte yields the replacement. -/
theorem argv0_total_witness :
    argv0OfCmdline [0x61, 0x00, 0x62] = some [0x61] ∧
    argv0OfCmdline [0xff] = some qqq := by
  constructor
  · exact argv0_total.2.2.2.1 [0x61, 0x00, 0x62] [0x61] [[0x62]] (by decide)
      (by decide)
  · exact argv0_total.2.2.2.2 [0xff] [0xff] [] (by decide) (by decide)

end Proc

namespace Podman

/-- A process passing the supervisor test reads as /usr/bin/conmon and its
socket listing meets the peer set. -/
theorem conmonPred_true (env : ProcEnv) (peers : List Nat) (p : Int)
    (h : conmonPred env peers p = true) :
    env.argv0_of p = some "/usr/bin/conmon" ∧
    ∃ socks, env.sockets_of p = some socks ∧
      have_common_member socks peers = true := by
  unfold conmonPred at h
  cases ha : env.argv0_of p with
  | none => simp [ha] at h
  | some a =>
    simp only [ha] at h
    by_cases he : a = "/usr/bin/conmon"
    · subst he
      rw [if_pos rfl] at h
      cases hs : env.sockets_of p with
      | none => simp [hs] at h
      | some socks =>
        simp only [hs] at h
        exact ⟨rfl, socks, rfl, h⟩
    · rw [if_neg he] at h
      simp at h

/-- C9: a peer inode is exactly a nonzero resolution of some socket inode
of the tty process group; with no process passing the supervisor test the
lookup fails; and a successful lookup returns a supervisor from the table
whose argv0 is /usr/bin/conmon and whose own sockets meet the peer set,
the container info its cmdline's -c argument yields from the inspector,
and a contained pid from the table whose parent is the supervisor. -/
theorem find_podman_peer_spec :
    (∀ (env : ProcEnv) (g : Int) (ino : Nat),
      ino ∈ peerSockets env g ↔
        ino ≠ 0 ∧ ∃ s ∈ groupSockets env g, env.peer_of s = some ino) ∧
    (∀ (env : ProcEnv) (g : Int),
      (∀ p ∈ env.processes, conmonPred env (peerSockets env g) p = false) →
      find_podman_peer env g = .error ()) ∧
    (∀ (env : ProcEnv) (g child : Int) (ci : Option ContainerInfo),
      find_podman_peer env g = .ok (child, ci) →
      ∃ sup, sup ∈ env.processes ∧
        env.argv0_of sup = some "/usr/bin/conmon" ∧
        (∃ socks, env.sockets_of sup = some socks ∧
          have_common_member socks (peerSockets env g) = true) ∧
        get_container_info env sup = some ci ∧
        child ∈ env.processes ∧
        env.parent_of child = some sup) := by
  refine ⟨?_, ?_, ?_⟩
  · intro env g ino
    simp only [peerSockets, List.mem_filterMap]
    constructor
    · rintro ⟨s, hs, hf⟩
      cases hps : env.peer_of s with
      | none => simp [hps] at hf
      | some peer =>
        simp only [hps] at hf
        by_cases hz : peer ≠ 0
        · rw [if_pos hz, Option.some.injEq] at hf
          subst hf
          exact ⟨hz, s, hs, hps⟩
        · rw [if_neg hz] at hf
          simp at hf
    · rintro ⟨hnz, s, hs, hps⟩
      refine ⟨s, hs, ?_⟩
      simp [hps, hnz]
  · intro env g hall
    have hnone : env.processes.find? (conmonPred env (peerSockets env g)) = none := by
      rw [List.find?_eq_none]
      intro p hp
      simp [hall p hp]
    simp only [find_podman_peer]
    rw [hnone]
  · intro env g child ci h
    simp only [find_podman_peer] at h
    cases hfind : env.processes.find? (conmonPred env (peerSockets env g)) with
    | none => simp [hfind] at h
    | some sup =>
      simp only [hfind] at h
      cases hci : get_container_info env sup with
      | none => simp [hci] at h
      | some ci2 =>
        simp only [hci] at h
        cases hch : env.processes.find? (fun p => env.parent_of p == some sup) with
        | none => simp [hch] at h
        | some c2 =>
          simp only [hch, Except.ok.injEq, Prod.mk.injEq] at h
          obtain ⟨rfl, rfl⟩ := h
          have hmem := List.mem_of_find?_eq_some hfind
          have hpred := List.find?_some hfind
          have hcmem := List.mem_of_find?_eq_some hch
          have hcpred := List.find?_some hch
          simp only [beq_iff_eq] at hcpred
          obtain ⟨hargv, hsock⟩ := conmonPred_true env (peerSockets env g) sup hpred
          exact ⟨sup, hmem, hargv, hsock, hci, hcmem, hcpred⟩

/-- Witness for find_podman_peer_spec on the concrete process table. -/
theorem find_podman_peer_spec_witness :
    find_podman_peer demoEnv 5 = .ok (30, some demoCI) ∧
    ∃ sup, sup ∈ demoEnv.processes ∧
      demoEnv.argv0_of sup = some "/usr/bin/conmon" ∧
      (∃ socks, demoEnv.sockets_of sup = some socks ∧
        have_common_member socks (peerSockets demoEnv 5) = true) ∧
      get_container_info demoEnv sup = some (some demoCI) ∧
      (30 : Int) ∈ demoEnv.processes ∧
      demoEnv.parent_of 30 = some sup := by
  have hok : find_podman_peer demoEnv 5 = .ok (30, some demoCI) := rfl
  exact ⟨hok, find_podman_peer_spec.2.2 demoEnv 5 30 (some demoCI) hok⟩

end Podman

end Ttymon
